import Mathlib

set_option maxRecDepth 16384

/-!
Verification of the charutil UTF-8 / UTF-16 conversion library.

The definitions below are a shallow embedding of the C++ sources:
  * `src/src/unicode_constants.h`        — numeric constants
  * `src/src/is_valid_utf8.cpp`          — `IsUTF8Valid`
  * `utf8_to_utf16.cpp`                  — `ConvertUTF8ToUTF16`
  * `utf16_to_utf8.cpp`                  — `ConvertUTF16ToUTF8`
  * `include/terra/charutil/character_utilities.h` — `Max_UTF16_String`

Octets are modelled as `Nat`; the C++ `std::uint8_t` range (`b < 256`) is
carried as an explicit hypothesis where a property depends on it.  The
`std::uint32_t` accumulator arithmetic is modelled with explicit
`% 4294967296` (2^32) reductions, and `static_cast<std::uint16_t>` with
explicit `% 65536` (2^16) reductions, exactly where the source performs
32-bit arithmetic or a 16-bit narrowing cast.  The output buffer of the two
converters is modelled by its capacity: a conversion returns
`some written_bytes` on success and `none` on failure (the C++ functions
return `{false, 0}` on failure, i.e. a zero byte count).
-/

/-! ## Constants (src/src/unicode_constants.h) -/

/-- Largest valid Unicode character (RFC 3629). -/
def Maximum_Character_Value : Nat := 0x10ffff

/-- Maximum Unicode character in the BMP. -/
def Maximum_BMP_Value : Nat := 0xffff

/-- Lower bound of the high-surrogate range. -/
def Surrogate_High_Min : Nat := 0xd800

/-- Upper bound of the high-surrogate range. -/
def Surrogate_High_Max : Nat := 0xdbff

/-- Lower bound of the low-surrogate range. -/
def Surrogate_Low_Min : Nat := 0xdc00

/-- Upper bound of the low-surrogate range. -/
def Surrogate_Low_Max : Nat := 0xdfff

/-- `Lead_Offset = 0xd800 - (0x1'0000 >> 10)`. -/
def Lead_Offset : Nat := 0xd800 - (0x10000 >>> 10)

/-- `Surrogate_Offset = 0xfca0'2400`, the source's precomputed value of
`0x1'0000 - (0xd800 << 10) - 0xdc00` taken mod 2^32. -/
def Surrogate_Offset : Nat := 0xfca02400

/-! ## `IsUTF8Valid` (src/src/is_valid_utf8.cpp) -/

/-- The body of the octet loop of `IsUTF8Valid`, with the loop state made
explicit: `expected` is `expected_utf8_remaining` and `wide` is
`wide_character`.  Reaching the end of the list is the loop exit, where the
function returns `expected_utf8_remaining == 0`. -/
def isUTF8ValidLoop : List Nat → Nat → Nat → Bool
  | [], expected, _ => expected == 0
  | octet :: rest, expected, wide =>
    if octet = 0xc0 ∨ octet = 0xc1 then false
    else if 0xf5 ≤ octet then false
    else if 0 < expected then
      if octet &&& 0xc0 ≠ 0x80 then false
      else
        let wide2 := ((wide <<< 6) ||| (octet &&& 0x3f)) % 4294967296
        if expected - 1 = 0 then
          if Maximum_Character_Value < wide2 then false
          else if Surrogate_High_Min ≤ wide2 ∧ wide2 ≤ Surrogate_Low_Max then false
          else isUTF8ValidLoop rest 0 wide2
        else isUTF8ValidLoop rest (expected - 1) wide2
    else if octet ≤ 0x7f then isUTF8ValidLoop rest 0 wide
    else if octet &&& 0xe0 = 0xc0 then isUTF8ValidLoop rest 1 (octet &&& 0x3f)
    else if octet &&& 0xf0 = 0xe0 then isUTF8ValidLoop rest 2 (octet &&& 0x0f)
    else if octet &&& 0xf8 = 0xf0 then isUTF8ValidLoop rest 3 (octet &&& 0x07)
    else false

/-- `IsUTF8Valid` from `src/src/is_valid_utf8.cpp` (the current validator,
with the 0xC0/0xC1 and >= 0xF5 early rejections). -/
def IsUTF8Valid (octets : List Nat) : Bool :=
  if octets.isEmpty then true else isUTF8ValidLoop octets 0 0

/-! ## `ConvertUTF8ToUTF16` (utf8_to_utf16.cpp) -/

/-- `InsertUTF16LE`: serialize a 16-bit code unit in little-endian order. -/
def insertUTF16LE (character : Nat) : List Nat :=
  [character &&& 0xff, (character >>> 8) &&& 0xff]

/-- `InsertUTF16BE`: serialize a 16-bit code unit in big-endian order. -/
def insertUTF16BE (character : Nat) : List Nat :=
  [(character >>> 8) &&& 0xff, character &&& 0xff]

/-- The `if (little_endian) InsertUTF16LE(...) else InsertUTF16BE(...)`
dispatch at the emission sites of the `ConvertUTF8ToUTF16` loop. -/
def insertUTF16 (le : Bool) (character : Nat) : List Nat :=
  if le then insertUTF16LE character else insertUTF16BE character

/-- The body of the octet loop of `ConvertUTF8ToUTF16`, with the loop state
explicit.  On success it returns the written octets (the source advances an
output iterator over the pre-sized buffer); its `% 65536` reductions are the
source's `static_cast<std::uint16_t>` narrowings.  Note that, unlike
`isUTF8ValidLoop`, this loop has no 0xC0/0xC1 or >= 0xF5 early rejection:
the source function does not perform those checks. -/
def convertLoop (le : Bool) : List Nat → Nat → Nat → Option (List Nat)
  | [], expected, _ => if 0 < expected then none else some []
  | octet :: rest, expected, wide =>
    if 0 < expected then
      if octet &&& 0xc0 ≠ 0x80 then none
      else
        let wide2 := ((wide <<< 6) ||| (octet &&& 0x3f)) % 4294967296
        if expected - 1 = 0 then
          if Maximum_Character_Value < wide2 then none
          else if Surrogate_High_Min ≤ wide2 ∧ wide2 ≤ Surrogate_Low_Max then none
          else if Maximum_BMP_Value < wide2 then
            (convertLoop le rest 0 wide2).map fun t =>
              (insertUTF16 le ((Lead_Offset + (wide2 >>> 10)) % 65536) ++
                insertUTF16 le ((Surrogate_Low_Min + (wide2 &&& 0x3ff)) % 65536)) ++ t
          else
            (convertLoop le rest 0 wide2).map fun t =>
              insertUTF16 le (wide2 % 65536) ++ t
        else convertLoop le rest (expected - 1) wide2
    else
      if octet ≤ 0x7f then
        (convertLoop le rest 0 wide).map fun t => insertUTF16 le octet ++ t
      else if octet &&& 0xe0 = 0xc0 then convertLoop le rest 1 (octet &&& 0x3f)
      else if octet &&& 0xf0 = 0xe0 then convertLoop le rest 2 (octet &&& 0x0f)
      else if octet &&& 0xf8 = 0xf0 then convertLoop le rest 3 (octet &&& 0x07)
      else none

/-- `ConvertUTF8ToUTF16` from `utf8_to_utf16.cpp`.  The output span is
modelled by its capacity `outCapacity`; `some bytes` is a successful
conversion that wrote `bytes`, `none` is the `{false, 0}` failure result. -/
def ConvertUTF8ToUTF16 (input : List Nat) (outCapacity : Nat)
    (little_endian : Bool) : Option (List Nat) :=
  if input.isEmpty then some []
  else if outCapacity < input.length * 2 then none
  else convertLoop little_endian input 0 0

/-! ## `ConvertUTF16ToUTF8` (utf16_to_utf8.cpp and the header) -/

/-- Width in bits of the platform `std::size_t`; this development models the
usual 64-bit platform (`sizeof(std::size_t) * CHAR_BIT = 64`). -/
def size_t_bits : Nat := 64

/-- `std::numeric_limits<std::size_t>::max()` for the modelled platform. -/
def size_t_max : Nat := 2 ^ size_t_bits - 1

/-- `Max_UTF16_String` from `character_utilities.h`: the bit-manipulation
expression computing (roughly) `SIZE_MAX / 1.5` by solving the division in
the lower half of the word and splicing two copies together. -/
def Max_UTF16_String : Nat :=
  ((((size_t_max >>> (size_t_bits >>> 1)) <<< 1) / 3) <<< (size_t_bits >>> 1)) |||
    (((size_t_max >>> (size_t_bits >>> 1)) <<< 1) / 3)

/-- `ExtractUTF16LE`: read a 16-bit code unit stored little-endian. -/
def extractUTF16LE (b0 b1 : Nat) : Nat := (b1 <<< 8) ||| b0

/-- `ExtractUTF16BE`: read a 16-bit code unit stored big-endian. -/
def extractUTF16BE (b0 b1 : Nat) : Nat := (b0 <<< 8) ||| b1

/-- The `if (little_endian) ExtractUTF16LE(...) else ExtractUTF16BE(...)`
dispatch at both extraction sites of the `ConvertUTF16ToUTF8` loop. -/
def extractUTF16 (le : Bool) (b0 b1 : Nat) : Nat :=
  if le then extractUTF16LE b0 b1 else extractUTF16BE b0 b1

/-- The UTF-8 emission branches at the bottom of the `ConvertUTF16ToUTF8`
loop (1 to 4 octets depending on the magnitude of `character`); the final
branch is the source's defensive `return {false, 0}` for a value above
0x10FFFF. -/
def utf8Encode (character : Nat) : Option (List Nat) :=
  if character ≤ 0x7f then some [character &&& 0x7f]
  else if character ≤ 0x7ff then
    some [0xc0 ||| ((character >>> 6) &&& 0x1f), 0x80 ||| (character &&& 0x3f)]
  else if character ≤ 0xffff then
    some [0xe0 ||| ((character >>> 12) &&& 0x0f), 0x80 ||| ((character >>> 6) &&& 0x3f),
          0x80 ||| (character &&& 0x3f)]
  else if character ≤ 0x10ffff then
    some [0xf0 ||| ((character >>> 18) &&& 0x07), 0x80 ||| ((character >>> 12) &&& 0x3f),
          0x80 ||| ((character >>> 6) &&& 0x3f), 0x80 ||| (character &&& 0x3f)]
  else none

/-- The surrogate-pair composition
`character = (character << 10) + low_surrogate + Surrogate_Offset`, carried
out in `std::uint32_t` arithmetic (hence the `% 2^32`). -/
def surrogateCombine (character low_surrogate : Nat) : Nat :=
  ((character <<< 10) + low_surrogate + Surrogate_Offset) % 4294967296

/-- The code-unit loop of `ConvertUTF16ToUTF8`, consuming the input two
octets (one code unit) at a time, four octets for a surrogate pair.  The
singleton cases cannot be reached from `ConvertUTF16ToUTF8` (the input
length was checked to be even); in the source they would correspond to
reading past `q`, which the even-length check rules out. -/
def utf16ToUtf8Loop (le : Bool) : List Nat → Option (List Nat)
  | [] => some []
  | [_] => none
  | b0 :: b1 :: rest =>
    let character := extractUTF16 le b0 b1
    if Surrogate_High_Min ≤ character ∧ character ≤ Surrogate_Low_Max then
      if Surrogate_Low_Min ≤ character ∧ character ≤ Surrogate_Low_Max then none
      else
        match rest with
        | [] => none
        | [_] => none
        | b2 :: b3 :: rest2 =>
          let low_surrogate := extractUTF16 le b2 b3
          if low_surrogate < Surrogate_Low_Min ∨ Surrogate_Low_Max < low_surrogate then none
          else
            (utf8Encode (surrogateCombine character low_surrogate)).bind fun enc =>
              (utf16ToUtf8Loop le rest2).map fun t => enc ++ t
    else
      (utf8Encode character).bind fun enc =>
        (utf16ToUtf8Loop le rest).map fun t => enc ++ t

/-- The byte-order-mark sniffing at the top of `ConvertUTF16ToUTF8`: with at
least four octets of input, a leading `FE FF` forces big-endian and a
leading `FF FE` forces little-endian; otherwise the caller's flag is kept. -/
def bomAdjust (little_endian : Bool) : List Nat → Bool
  | b0 :: b1 :: rest =>
    if 2 ≤ rest.length then
      if b0 = 0xfe ∧ b1 = 0xff then false
      else if b0 = 0xff ∧ b1 = 0xfe then true
      else little_endian
    else little_endian
  | _ => little_endian

/-- `ConvertUTF16ToUTF8` from `utf16_to_utf8.cpp`: guard checks (empty
input, odd length, length ceiling, output capacity), BOM sniffing, then the
code-unit loop. -/
def ConvertUTF16ToUTF8 (input : List Nat) (outCapacity : Nat)
    (little_endian : Bool) : Option (List Nat) :=
  if input.length = 0 then some []
  else if input.length &&& 1 ≠ 0 then none
  else if Max_UTF16_String < input.length then none
  else if outCapacity < input.length + (input.length >>> 1) then none
  else utf16ToUtf8Loop (bomAdjust little_endian input) input

/-- `ConvertUTF16ToUTF8` with the BOM sniffing removed: the caller's
endianness flag is used for every code unit.  Used to state what the BOM
override does relative to plain decoding. -/
def ConvertUTF16ToUTF8_noBOM (input : List Nat) (outCapacity : Nat)
    (little_endian : Bool) : Option (List Nat) :=
  if input.length = 0 then some []
  else if input.length &&& 1 ≠ 0 then none
  else if Max_UTF16_String < input.length then none
  else if outCapacity < input.length + (input.length >>> 1) then none
  else utf16ToUtf8Loop little_endian input

/-! ## Canonical encoders, used to state the round-trip property -/

/-- The octets `utf8Encode` produces for a scalar value (with junk `[]` for
the unreachable defensive branch); `cps.flatMap utf8Bytes` is the canonical
(shortest-form) UTF-8 encoding of a codepoint sequence. -/
def utf8Bytes (c : Nat) : List Nat := (utf8Encode c).getD []

/-- The octets `ConvertUTF8ToUTF16` emits for one completed codepoint: one
code unit for the BMP, a surrogate pair above it, in the requested byte
order.  The expressions match the emission sites of `convertLoop`. -/
def utf16EncodeCp (le : Bool) (c : Nat) : List Nat :=
  if Maximum_BMP_Value < c then
    insertUTF16 le ((Lead_Offset + (c >>> 10)) % 65536) ++
      insertUTF16 le ((Surrogate_Low_Min + (c &&& 0x3ff)) % 65536)
  else insertUTF16 le (c % 65536)

/-- Concatenation of a per-codepoint encoder over a codepoint sequence
(`concatMap`): `concatMapBytes utf8Bytes cps` is the canonical shortest-form
UTF-8 encoding of `cps` and `concatMapBytes (utf16EncodeCp le) cps` its
UTF-16 serialization. -/
def concatMapBytes (f : Nat → List Nat) : List Nat → List Nat
  | [] => []
  | c :: cs => f c ++ concatMapBytes f cs

/-- Modelled from the spec: the documented input-length ceiling
`floor(SIZE_MAX / 1.5)` in the width of the platform size type.  Since
`floor(x / 1.5) = floor(2x / 3)`, this is exact natural division. -/
def Max_UTF16_String_specFloor : Nat := size_t_max * 2 / 3

/-! ## Arithmetic toolkit -/

/-- Disjoint bitwise or is addition: `a * 2^n ||| b = a * 2^n + b` for `b < 2^n`. -/
theorem lor_eq_add_pow (n a b : Nat) (h : b < 2 ^ n) : a * 2 ^ n ||| b = a * 2 ^ n + b := by
  rw [Nat.mul_comm]
  exact (Nat.mul_add_lt_is_or h a).symm

/-- `x &&& 0x3f` is `x % 64`. -/
theorem and_63 (x : Nat) : x &&& 63 = x % 64 := by
  have h := Nat.and_pow_two_sub_one_eq_mod x 6
  norm_num at h
  exact h

/-- `x &&& 0xff` is `x % 256`. -/
theorem and_255 (x : Nat) : x &&& 255 = x % 256 := by
  have h := Nat.and_pow_two_sub_one_eq_mod x 8
  norm_num at h
  exact h

/-- `x &&& 0x3ff` is `x % 1024`. -/
theorem and_1023 (x : Nat) : x &&& 1023 = x % 1024 := by
  have h := Nat.and_pow_two_sub_one_eq_mod x 10
  norm_num at h
  exact h

/-- `x &&& 0x1f` is `x % 32`. -/
theorem and_31 (x : Nat) : x &&& 31 = x % 32 := by
  have h := Nat.and_pow_two_sub_one_eq_mod x 5
  norm_num at h
  exact h

/-- `x &&& 0x0f` is `x % 16`. -/
theorem and_15 (x : Nat) : x &&& 15 = x % 16 := by
  have h := Nat.and_pow_two_sub_one_eq_mod x 4
  norm_num at h
  exact h

/-- `x &&& 0x07` is `x % 8`. -/
theorem and_7 (x : Nat) : x &&& 7 = x % 8 := by
  have h := Nat.and_pow_two_sub_one_eq_mod x 3
  norm_num at h
  exact h

/-- `x &&& 0x7f` is `x % 128`. -/
theorem and_127 (x : Nat) : x &&& 127 = x % 128 := by
  have h := Nat.and_pow_two_sub_one_eq_mod x 7
  norm_num at h
  exact h

/-! ## Claim theorems: the easy evaluations -/

/-- Claim C1 (code bug): the validator and the UTF-8 to UTF-16 converter do
not agree.  `IsUTF8Valid` rejects the overlong two-octet sequence
`C0 80` through its explicit 0xC0/0xC1 check, but `ConvertUTF8ToUTF16`
lacks that check and converts the sequence successfully (to the single code
unit U+0000), with an amply sized output buffer. -/
theorem c1_overlong_divergence :
    IsUTF8Valid [0xc0, 0x80] = false ∧
    ConvertUTF8ToUTF16 [0xc0, 0x80] 4 true = some [0x00, 0x00] := by decide

/-- Claim C2 counterexample: the round trip is not the identity for every
valid UTF-8 input.  Two concrete failures: (a) `EF BF BE 41` (U+FFFE then
"A") is valid UTF-8, converts to the UTF-16LE bytes `FE FF 41 00`, and the
way back misreads the leading `FE FF` as a big-endian BOM, producing
`EF BB BF E4 84 80`; (b) the overlong `E0 80 80` is accepted by the
validator, converts to code unit 0000, and comes back as the single octet
`00`. -/
theorem c2_roundtrip_counterexample :
    IsUTF8Valid [0xef, 0xbf, 0xbe, 0x41] = true ∧
    ConvertUTF8ToUTF16 [0xef, 0xbf, 0xbe, 0x41] 8 true = some [0xfe, 0xff, 0x41, 0x00] ∧
    ConvertUTF16ToUTF8 [0xfe, 0xff, 0x41, 0x00] 6 true =
      some [0xef, 0xbb, 0xbf, 0xe4, 0x84, 0x80] ∧
    [0xef, 0xbb, 0xbf, 0xe4, 0x84, 0x80] ≠ [0xef, 0xbf, 0xbe, 0x41] ∧
    IsUTF8Valid [0xe0, 0x80, 0x80] = true ∧
    ConvertUTF8ToUTF16 [0xe0, 0x80, 0x80] 6 true = some [0x00, 0x00] ∧
    ConvertUTF16ToUTF8 [0x00, 0x00] 3 true = some [0x00] ∧
    [0x00] ≠ [0xe0, 0x80, 0x80] := by decide

/-- Claim C3 counterexample: a sequence containing the octet 0xC0 (or 0xC1)
is not rejected by all three operations.  `ConvertUTF16ToUTF8` happily
converts the UTF-16LE unit `00C0` (the octets `C0 00`), and
`ConvertUTF8ToUTF16` accepts `41 C0 80` because it lacks the validator's
0xC0/0xC1 check. -/
theorem c3_counterexample :
    ConvertUTF16ToUTF8 [0xc0, 0x00] 3 true = some [0xc3, 0x80] ∧
    ConvertUTF16ToUTF8 [0xc1, 0x00] 3 true = some [0xc3, 0x81] ∧
    ConvertUTF8ToUTF16 [0x41, 0xc0, 0x80] 6 true = some [0x41, 0x00, 0x00, 0x00] := by
  decide

/-- Claim C7: the bit-manipulation expression for `Max_UTF16_String` equals
`floor(SIZE_MAX / 1.5)` for the modelled 64-bit size type, and
`ConvertUTF16ToUTF8` fails on every input longer than that ceiling. -/
theorem c7_length_ceiling :
    Max_UTF16_String = Max_UTF16_String_specFloor ∧
    ∀ (input : List Nat) (outCapacity : Nat) (le : Bool),
      Max_UTF16_String < input.length →
      ConvertUTF16ToUTF8 input outCapacity le = none := by
  constructor
  · decide
  · intro input outCapacity le h
    unfold ConvertUTF16ToUTF8
    have h0 : input.length ≠ 0 := by
      intro h0
      rw [h0] at h
      exact absurd h (by decide)
    rw [if_neg h0]
    by_cases hodd : input.length &&& 1 ≠ 0
    · rw [if_pos hodd]
    · rw [if_neg hodd, if_pos h]

/-- Witness for C7 at a concrete (astronomically long but definable) input:
a list of `Max_UTF16_String + 2` zero octets is rejected. -/
theorem c7_witness :
    ConvertUTF16ToUTF8 (List.replicate (Max_UTF16_String + 2) 0) 0 true = none :=
  c7_length_ceiling.2 _ 0 true (by rw [List.length_replicate]; omega)

/-- Claim C6: for a high surrogate `u` and low surrogate `low`, the source's
mod-2^32 combination `(u << 10) + low + Surrogate_Offset` equals the
overflow-free form `0x10000 + ((u - 0xD800) << 10) + (low - 0xDC00)`, and
the result always lies in `0x10000 .. 0x10FFFF`. -/
theorem c6_surrogate_offset_arithmetic :
    ∀ u low : Nat, 0xd800 ≤ u → u ≤ 0xdbff → 0xdc00 ≤ low → low ≤ 0xdfff →
      surrogateCombine u low = 0x10000 + ((u - 0xd800) <<< 10) + (low - 0xdc00) ∧
      0x10000 ≤ surrogateCombine u low ∧ surrogateCombine u low ≤ 0x10ffff := by
  intro u low h1 h2 h3 h4
  unfold surrogateCombine Surrogate_Offset
  simp only [Nat.shiftLeft_eq]
  norm_num
  omega

/-- Witness for C6 at the surrogate pair of U+1F600. -/
theorem c6_witness :
    surrogateCombine 0xd83d 0xde00 =
      0x10000 + ((0xd83d - 0xd800) <<< 10) + (0xde00 - 0xdc00) ∧
    0x10000 ≤ surrogateCombine 0xd83d 0xde00 ∧
    surrogateCombine 0xd83d 0xde00 ≤ 0x10ffff :=
  c6_surrogate_offset_arithmetic 0xd83d 0xde00 (by decide) (by decide) (by decide)
    (by decide)

/-- Claim C10: on empty input both converters succeed with an empty output
(byte count 0) whatever the output capacity, including capacity 0: the
empty-input test precedes the capacity, parity and ceiling checks. -/
theorem c10_empty_input (outCapacity : Nat) (le : Bool) :
    ConvertUTF8ToUTF16 [] outCapacity le = some [] ∧
    ConvertUTF16ToUTF8 [] outCapacity le = some [] := ⟨rfl, rfl⟩

/-! ## Helper lemmas about `ConvertUTF16ToUTF8` -/

/-- One-step unfolding of the code-unit loop at a cons-cons input. -/
theorem utf16Loop_cons (le : Bool) (b0 b1 : Nat) (rest : List Nat) :
    utf16ToUtf8Loop le (b0 :: b1 :: rest) =
      (if Surrogate_High_Min ≤ extractUTF16 le b0 b1 ∧
          extractUTF16 le b0 b1 ≤ Surrogate_Low_Max then
        if Surrogate_Low_Min ≤ extractUTF16 le b0 b1 ∧
            extractUTF16 le b0 b1 ≤ Surrogate_Low_Max then none
        else
          match rest with
          | [] => none
          | [_] => none
          | b2 :: b3 :: rest2 =>
            if extractUTF16 le b2 b3 < Surrogate_Low_Min ∨
                Surrogate_Low_Max < extractUTF16 le b2 b3 then none
            else
              (utf8Encode (surrogateCombine (extractUTF16 le b0 b1)
                  (extractUTF16 le b2 b3))).bind fun enc =>
                (utf16ToUtf8Loop le rest2).map fun t => enc ++ t
      else
        (utf8Encode (extractUTF16 le b0 b1)).bind fun enc =>
          (utf16ToUtf8Loop le rest).map fun t => enc ++ t) := by
  rw [utf16ToUtf8Loop.eq_def]

/-- If the code-unit loop fails, the whole conversion fails: every guard
branch of `ConvertUTF16ToUTF8` other than the empty input also returns
`none`. -/
theorem convert16_none_of_loop_none (input : List Nat) (cap : Nat) (le : Bool)
    (h : utf16ToUtf8Loop (bomAdjust le input) input = none) :
    ConvertUTF16ToUTF8 input cap le = none := by
  unfold ConvertUTF16ToUTF8
  by_cases h0 : input.length = 0
  · obtain rfl : input = [] := List.length_eq_zero.mp h0
    simp [utf16ToUtf8Loop] at h
  · rw [if_neg h0]
    by_cases h1 : input.length &&& 1 ≠ 0
    · rw [if_pos h1]
    · rw [if_neg h1]
      by_cases h2 : Max_UTF16_String < input.length
      · rw [if_pos h2]
      · rw [if_neg h2]
        by_cases h3 : cap < input.length + (input.length >>> 1)
        · rw [if_pos h3]
        · rw [if_neg h3]
          exact h

/-- Absent a leading BOM pattern, the sniffing keeps the caller's flag. -/
theorem bomAdjust_of_not_pattern (le : Bool) (b0 b1 : Nat) (rest : List Nat)
    (h1 : ¬(b0 = 0xfe ∧ b1 = 0xff)) (h2 : ¬(b0 = 0xff ∧ b1 = 0xfe)) :
    bomAdjust le (b0 :: b1 :: rest) = le := by
  show (if 2 ≤ rest.length then
          if b0 = 0xfe ∧ b1 = 0xff then false
          else if b0 = 0xff ∧ b1 = 0xfe then true
          else le
        else le) = le
  rw [if_neg h1, if_neg h2, ite_self]

/-- A leading code unit in the surrogate range is not a BOM pattern, so the
sniffing keeps the caller's flag. -/
theorem bomAdjust_of_surrogate (le : Bool) (b0 b1 : Nat) (rest : List Nat)
    (h1 : 0xd800 ≤ extractUTF16 le b0 b1) (h2 : extractUTF16 le b0 b1 ≤ 0xdfff) :
    bomAdjust le (b0 :: b1 :: rest) = le := by
  apply bomAdjust_of_not_pattern
  · rintro ⟨rfl, rfl⟩
    cases le <;> revert h1 h2 <;> decide
  · rintro ⟨rfl, rfl⟩
    cases le <;> revert h1 h2 <;> decide

/-- The code-unit loop rejects a leading lone low surrogate. -/
theorem loop_none_of_low_surrogate (le : Bool) (b0 b1 : Nat) (rest : List Nat)
    (h1 : 0xdc00 ≤ extractUTF16 le b0 b1) (h2 : extractUTF16 le b0 b1 ≤ 0xdfff) :
    utf16ToUtf8Loop le (b0 :: b1 :: rest) = none := by
  rw [utf16Loop_cons]
  rw [if_pos ⟨show Surrogate_High_Min ≤ extractUTF16 le b0 b1 by
        unfold Surrogate_High_Min; omega,
      show extractUTF16 le b0 b1 ≤ Surrogate_Low_Max from h2⟩]
  rw [if_pos ⟨show Surrogate_Low_Min ≤ extractUTF16 le b0 b1 from h1,
      show extractUTF16 le b0 b1 ≤ Surrogate_Low_Max from h2⟩]

/-- The code-unit loop rejects a high surrogate at the end of the input. -/
theorem loop_none_of_high_surrogate_end (le : Bool) (b0 b1 : Nat)
    (h1 : 0xd800 ≤ extractUTF16 le b0 b1) (h2 : extractUTF16 le b0 b1 ≤ 0xdbff) :
    utf16ToUtf8Loop le [b0, b1] = none := by
  rw [utf16Loop_cons]
  rw [if_pos ⟨show Surrogate_High_Min ≤ extractUTF16 le b0 b1 from h1,
      show extractUTF16 le b0 b1 ≤ Surrogate_Low_Max by unfold Surrogate_Low_Max; omega⟩]
  rw [if_neg (show ¬(Surrogate_Low_Min ≤ extractUTF16 le b0 b1 ∧
      extractUTF16 le b0 b1 ≤ Surrogate_Low_Max) by
    unfold Surrogate_Low_Min Surrogate_Low_Max; omega)]

/-- The code-unit loop rejects a high surrogate whose following code unit is
not a low surrogate. -/
theorem loop_none_of_bad_pair (le : Bool) (b0 b1 b2 b3 : Nat) (rest : List Nat)
    (h1 : 0xd800 ≤ extractUTF16 le b0 b1) (h2 : extractUTF16 le b0 b1 ≤ 0xdbff)
    (h3 : ¬(0xdc00 ≤ extractUTF16 le b2 b3 ∧ extractUTF16 le b2 b3 ≤ 0xdfff)) :
    utf16ToUtf8Loop le (b0 :: b1 :: b2 :: b3 :: rest) = none := by
  rw [utf16Loop_cons]
  rw [if_pos ⟨show Surrogate_High_Min ≤ extractUTF16 le b0 b1 from h1,
      show extractUTF16 le b0 b1 ≤ Surrogate_Low_Max by unfold Surrogate_Low_Max; omega⟩]
  rw [if_neg (show ¬(Surrogate_Low_Min ≤ extractUTF16 le b0 b1 ∧
      extractUTF16 le b0 b1 ≤ Surrogate_Low_Max) by
    unfold Surrogate_Low_Min Surrogate_Low_Max; omega)]
  show (if extractUTF16 le b2 b3 < Surrogate_Low_Min ∨
      Surrogate_Low_Max < extractUTF16 le b2 b3 then none
    else
      (utf8Encode (surrogateCombine (extractUTF16 le b0 b1)
          (extractUTF16 le b2 b3))).bind fun enc =>
        (utf16ToUtf8Loop le rest).map fun t => enc ++ t) = none
  rw [if_pos (show extractUTF16 le b2 b3 < Surrogate_Low_Min ∨
      Surrogate_Low_Max < extractUTF16 le b2 b3 by
    unfold Surrogate_Low_Min Surrogate_Low_Max; omega)]

/-- Claim C5: `ConvertUTF16ToUTF8` fails on malformed surrogates.  At any
point of the stream where the decoder reads a fresh code unit (the loop
positions), (1) a code unit in the low-surrogate range 0xDC00..0xDFFF that
does not follow a high surrogate makes the conversion fail; (2) a high
surrogate 0xD800..0xDBFF at the end of the input makes it fail; and (3) a
high surrogate followed by a code unit outside 0xDC00..0xDFFF makes it
fail.  Parts are stated at the head of the input, which is the generic loop
position; the loop is invoked at every code-unit boundary. -/
theorem c5_malformed_surrogates :
    (∀ (le : Bool) (cap : Nat) (b0 b1 : Nat) (rest : List Nat),
      0xdc00 ≤ extractUTF16 le b0 b1 → extractUTF16 le b0 b1 ≤ 0xdfff →
      ConvertUTF16ToUTF8 (b0 :: b1 :: rest) cap le = none) ∧
    (∀ (le : Bool) (cap : Nat) (b0 b1 : Nat),
      0xd800 ≤ extractUTF16 le b0 b1 → extractUTF16 le b0 b1 ≤ 0xdbff →
      ConvertUTF16ToUTF8 [b0, b1] cap le = none) ∧
    (∀ (le : Bool) (cap : Nat) (b0 b1 b2 b3 : Nat) (rest : List Nat),
      0xd800 ≤ extractUTF16 le b0 b1 → extractUTF16 le b0 b1 ≤ 0xdbff →
      ¬(0xdc00 ≤ extractUTF16 le b2 b3 ∧ extractUTF16 le b2 b3 ≤ 0xdfff) →
      ConvertUTF16ToUTF8 (b0 :: b1 :: b2 :: b3 :: rest) cap le = none) := by
  refine ⟨?_, ?_, ?_⟩
  · intro le cap b0 b1 rest h1 h2
    apply convert16_none_of_loop_none
    rw [bomAdjust_of_surrogate le b0 b1 rest (by omega) h2]
    exact loop_none_of_low_surrogate le b0 b1 rest h1 h2
  · intro le cap b0 b1 h1 h2
    apply convert16_none_of_loop_none
    rw [bomAdjust_of_surrogate le b0 b1 [] h1 (by omega)]
    exact loop_none_of_high_surrogate_end le b0 b1 h1 h2
  · intro le cap b0 b1 b2 b3 rest h1 h2 h3
    apply convert16_none_of_loop_none
    rw [bomAdjust_of_surrogate le b0 b1 (b2 :: b3 :: rest) h1 (by omega)]
    exact loop_none_of_bad_pair le b0 b1 b2 b3 rest h1 h2 h3

/-- Witness for C5: the lone low surrogate `DC00`, the lone high surrogate
`D800`, and the pair `D800 0041` all fail (UTF-16LE octets). -/
theorem c5_witness :
    ConvertUTF16ToUTF8 [0x00, 0xdc] 3 true = none ∧
    ConvertUTF16ToUTF8 [0x00, 0xd8] 3 true = none ∧
    ConvertUTF16ToUTF8 [0x00, 0xd8, 0x41, 0x00] 6 true = none := by
  refine ⟨?_, ?_, ?_⟩
  · exact c5_malformed_surrogates.1 true 3 0x00 0xdc [] (by decide) (by decide)
  · exact c5_malformed_surrogates.2.1 true 3 0x00 0xd8 (by decide) (by decide)
  · exact c5_malformed_surrogates.2.2 true 6 0x00 0xd8 0x41 0x00 [] (by decide)
      (by decide) (by decide)

/-! ## Claim C9: the defensive encode branch is unreachable -/

/-- A code unit read from two octets is at most 0xFFFF. -/
theorem extractUTF16_le_ffff (le : Bool) (b0 b1 : Nat) (h0 : b0 < 256)
    (h1 : b1 < 256) : extractUTF16 le b0 b1 ≤ 0xffff := by
  have hlt : extractUTF16 le b0 b1 < 2 ^ 16 := by
    cases le
    · show extractUTF16BE b0 b1 < 2 ^ 16
      unfold extractUTF16BE
      exact Nat.or_lt_two_pow (by rw [Nat.shiftLeft_eq]; omega) (by omega)
    · show extractUTF16LE b0 b1 < 2 ^ 16
      unfold extractUTF16LE
      exact Nat.or_lt_two_pow (by rw [Nat.shiftLeft_eq]; omega) (by omega)
  omega

/-- `utf8Encode` succeeds on every scalar value up to 0x10FFFF. -/
theorem utf8Encode_isSome (c : Nat) (h : c ≤ 0x10ffff) :
    (utf8Encode c).isSome = true := by
  unfold utf8Encode
  repeat' split
  all_goals first | rfl | omega

/-- Closed form of the mod-2^32 surrogate combination on surrogate inputs. -/
theorem surrogateCombine_closed (u low : Nat) (h1 : 0xd800 ≤ u) (h2 : u ≤ 0xdbff)
    (h3 : 0xdc00 ≤ low) (h4 : low ≤ 0xdfff) :
    surrogateCombine u low = 0x10000 + (u - 0xd800) * 1024 + (low - 0xdc00) := by
  unfold surrogateCombine Surrogate_Offset
  simp only [Nat.shiftLeft_eq]
  norm_num
  omega

/-- Claim C9: the final defensive failure branch of the UTF-8 encoding step
is unreachable.  The loop hands `utf8Encode` either a non-surrogate code
unit read from two octets — which is at most 0xFFFF — or the combination of
a checked high/low surrogate pair — which lies in 0x10000..0x10FFFF — so
`utf8Encode` always takes one of its four `some` branches. -/
theorem c9_defensive_branch_unreachable :
    (∀ (le : Bool) (b0 b1 : Nat), b0 < 256 → b1 < 256 →
      extractUTF16 le b0 b1 ≤ 0x10ffff ∧
      (utf8Encode (extractUTF16 le b0 b1)).isSome = true) ∧
    (∀ u low : Nat, 0xd800 ≤ u → u ≤ 0xdbff → 0xdc00 ≤ low → low ≤ 0xdfff →
      surrogateCombine u low ≤ 0x10ffff ∧
      (utf8Encode (surrogateCombine u low)).isSome = true) := by
  constructor
  · intro le b0 b1 h0 h1
    have h := extractUTF16_le_ffff le b0 b1 h0 h1
    exact ⟨by omega, utf8Encode_isSome _ (by omega)⟩
  · intro u low h1 h2 h3 h4
    have h := surrogateCombine_closed u low h1 h2 h3 h4
    exact ⟨by omega, utf8Encode_isSome _ (by omega)⟩

/-- Witness for C9 at the code unit 0x0041 and the surrogate pair
`D83D DE00` (U+1F600). -/
theorem c9_witness :
    (extractUTF16 true 0x41 0x00 ≤ 0x10ffff ∧
      (utf8Encode (extractUTF16 true 0x41 0x00)).isSome = true) ∧
    (surrogateCombine 0xd83d 0xde00 ≤ 0x10ffff ∧
      (utf8Encode (surrogateCombine 0xd83d 0xde00)).isSome = true) :=
  ⟨c9_defensive_branch_unreachable.1 true 0x41 0x00 (by decide) (by decide),
   c9_defensive_branch_unreachable.2 0xd83d 0xde00 (by decide) (by decide)
     (by decide) (by decide)⟩

/-! ## Claim C4: BOM behaviour of `ConvertUTF16ToUTF8` -/

/-- `ConvertUTF16ToUTF8` is the BOM-free conversion run with the sniffed
endianness flag. -/
theorem convert16_eq_noBOM (input : List Nat) (cap : Nat) (le : Bool) :
    ConvertUTF16ToUTF8 input cap le =
      ConvertUTF16ToUTF8_noBOM input cap (bomAdjust le input) := rfl

/-- A successful BOM-free conversion means the code-unit loop succeeded. -/
theorem noBOM_some_loop (input : List Nat) (cap : Nat) (le : Bool)
    (out : List Nat) (h : ConvertUTF16ToUTF8_noBOM input cap le = some out) :
    utf16ToUtf8Loop le input = some out := by
  unfold ConvertUTF16ToUTF8_noBOM at h
  by_cases h0 : input.length = 0
  · obtain rfl : input = [] := List.length_eq_zero.mp h0
    have h2 : some [] = some out := by simpa using h
    cases h2
    rfl
  · rw [if_neg h0] at h
    by_cases h1 : input.length &&& 1 ≠ 0
    · rw [if_pos h1] at h
      cases h
    · rw [if_neg h1] at h
      by_cases h2 : Max_UTF16_String < input.length
      · rw [if_pos h2] at h
        cases h
      · rw [if_neg h2] at h
        by_cases h3 : cap < input.length + (input.length >>> 1)
        · rw [if_pos h3] at h
          cases h
        · rw [if_neg h3] at h
          exact h

/-- With a big-endian BOM in front, the sniffing forces big-endian. -/
theorem bomAdjust_be (le : Bool) (rest : List Nat) (h : 2 ≤ rest.length) :
    bomAdjust le (0xfe :: 0xff :: rest) = false := by
  show (if 2 ≤ rest.length then
          if (0xfe : Nat) = 0xfe ∧ (0xff : Nat) = 0xff then false
          else if (0xfe : Nat) = 0xff ∧ (0xff : Nat) = 0xfe then true
          else le
        else le) = false
  rw [if_pos h, if_pos ⟨rfl, rfl⟩]

/-- With a little-endian BOM in front, the sniffing forces little-endian. -/
theorem bomAdjust_le (le : Bool) (rest : List Nat) (h : 2 ≤ rest.length) :
    bomAdjust le (0xff :: 0xfe :: rest) = true := by
  show (if 2 ≤ rest.length then
          if (0xff : Nat) = 0xfe ∧ (0xfe : Nat) = 0xff then false
          else if (0xff : Nat) = 0xff ∧ (0xfe : Nat) = 0xfe then true
          else le
        else le) = true
  rw [if_pos h, if_neg (by omega : ¬((0xff : Nat) = 0xfe ∧ (0xfe : Nat) = 0xff)),
    if_pos ⟨rfl, rfl⟩]

/-- A successful loop on an input whose first code unit decodes to U+FEFF
emits the octets `EF BB BF` first. -/
theorem loop_feff_prefix (le : Bool) (b0 b1 : Nat) (rest : List Nat)
    (out : List Nat) (hx : extractUTF16 le b0 b1 = 0xfeff)
    (h : utf16ToUtf8Loop le (b0 :: b1 :: rest) = some out) :
    out.take 3 = [0xef, 0xbb, 0xbf] := by
  rw [utf16Loop_cons, hx] at h
  rw [if_neg (by decide : ¬(Surrogate_High_Min ≤ 0xfeff ∧
      (0xfeff : Nat) ≤ Surrogate_Low_Max))] at h
  rw [(by decide : utf8Encode 0xfeff = some [0xef, 0xbb, 0xbf])] at h
  rw [Option.some_bind] at h
  cases hr : utf16ToUtf8Loop le rest with
  | none => rw [hr] at h; cases h
  | some t =>
    rw [hr] at h
    rw [Option.map_some'] at h
    cases h
    rfl

/-- Claim C4: BOM behaviour.  For input of at least four octets: a leading
`FE FF` makes the conversion behave as the BOM-free conversion forced to
big-endian, whatever the caller's flag, and a successful output begins with
`EF BB BF` (the BOM codepoint re-encoded, not stripped); a leading `FF FE`
likewise forces little-endian with the same re-encoded prefix; with any
other leading octet pair the caller's flag is used unchanged. -/
theorem c4_bom_behavior (le : Bool) (cap : Nat) (rest : List Nat)
    (hlen : 2 ≤ rest.length) :
    (ConvertUTF16ToUTF8 (0xfe :: 0xff :: rest) cap le =
      ConvertUTF16ToUTF8_noBOM (0xfe :: 0xff :: rest) cap false) ∧
    (ConvertUTF16ToUTF8 (0xff :: 0xfe :: rest) cap le =
      ConvertUTF16ToUTF8_noBOM (0xff :: 0xfe :: rest) cap true) ∧
    (∀ out, ConvertUTF16ToUTF8 (0xfe :: 0xff :: rest) cap le = some out →
      out.take 3 = [0xef, 0xbb, 0xbf]) ∧
    (∀ out, ConvertUTF16ToUTF8 (0xff :: 0xfe :: rest) cap le = some out →
      out.take 3 = [0xef, 0xbb, 0xbf]) ∧
    (∀ b0 b1 : Nat, ¬(b0 = 0xfe ∧ b1 = 0xff) → ¬(b0 = 0xff ∧ b1 = 0xfe) →
      ConvertUTF16ToUTF8 (b0 :: b1 :: rest) cap le =
        ConvertUTF16ToUTF8_noBOM (b0 :: b1 :: rest) cap le) := by
  refine ⟨?_, ?_, ?_, ?_, ?_⟩
  · rw [convert16_eq_noBOM, bomAdjust_be le rest hlen]
  · rw [convert16_eq_noBOM, bomAdjust_le le rest hlen]
  · intro out h
    rw [convert16_eq_noBOM, bomAdjust_be le rest hlen] at h
    exact loop_feff_prefix false 0xfe 0xff rest out (by decide)
      (noBOM_some_loop _ cap false out h)
  · intro out h
    rw [convert16_eq_noBOM, bomAdjust_le le rest hlen] at h
    exact loop_feff_prefix true 0xff 0xfe rest out (by decide)
      (noBOM_some_loop _ cap true out h)
  · intro b0 b1 h1 h2
    rw [convert16_eq_noBOM, bomAdjust_of_not_pattern le b0 b1 rest h1 h2]

/-- Witness for C4 with the code unit 0x0041 after the BOM. -/
theorem c4_witness :
    (ConvertUTF16ToUTF8 [0xfe, 0xff, 0x00, 0x41] 6 true =
      ConvertUTF16ToUTF8_noBOM [0xfe, 0xff, 0x00, 0x41] 6 false) ∧
    (ConvertUTF16ToUTF8 [0xff, 0xfe, 0x00, 0x41] 6 true =
      ConvertUTF16ToUTF8_noBOM [0xff, 0xfe, 0x00, 0x41] 6 true) ∧
    List.take 3 [0xef, 0xbb, 0xbf, 0x41] = [0xef, 0xbb, 0xbf] ∧
    List.take 3 [0xef, 0xbb, 0xbf, 0xe4, 0x84, 0x80] = [0xef, 0xbb, 0xbf] := by
  have h := c4_bom_behavior true 6 [0x00, 0x41] (by decide)
  refine ⟨h.1, h.2.1, ?_, ?_⟩
  · exact h.2.2.1 [0xef, 0xbb, 0xbf, 0x41] (by decide)
  · exact h.2.2.2.1 [0xef, 0xbb, 0xbf, 0xe4, 0x84, 0x80] (by decide)

/-! ## Claim C8: exact buffer sizing -/

/-- On nonempty input the validator runs its loop from the initial state. -/
theorem isUTF8Valid_loop_of_ne (s : List Nat) (hne : s ≠ [])
    (h : IsUTF8Valid s = true) : isUTF8ValidLoop s 0 0 = true := by
  unfold IsUTF8Valid at h
  rwa [if_neg (fun hh => hne (by simpa using hh))] at h

/-- Whatever input the validator accepts, the UTF-8 to UTF-16 conversion
loop accepts from the same state: the converter's checks are a subset of
the validator's. -/
theorem valid_imp_convertLoop (s : List Nat) : ∀ (expected wide : Nat) (le : Bool),
    isUTF8ValidLoop s expected wide = true →
    (convertLoop le s expected wide).isSome = true := by
  induction s with
  | nil =>
    intro expected wide le h
    simp only [isUTF8ValidLoop, beq_iff_eq] at h
    simp [convertLoop, h]
  | cons o rest ih =>
    intro expected wide le h
    simp only [isUTF8ValidLoop] at h
    simp only [convertLoop]
    by_cases hc0 : o = 0xc0 ∨ o = 0xc1
    · rw [if_pos hc0] at h
      simp at h
    · rw [if_neg hc0] at h
      by_cases hf5 : 0xf5 ≤ o
      · rw [if_pos hf5] at h
        simp at h
      · rw [if_neg hf5] at h
        by_cases hexp : 0 < expected
        · rw [if_pos hexp] at h
          rw [if_pos hexp]
          by_cases hcont : o &&& 0xc0 ≠ 0x80
          · rw [if_pos hcont] at h
            simp at h
          · rw [if_neg hcont] at h
            rw [if_neg hcont]
            by_cases hone : expected - 1 = 0
            · rw [if_pos hone] at h
              rw [if_pos hone]
              by_cases hmax : Maximum_Character_Value <
                  ((wide <<< 6) ||| (o &&& 0x3f)) % 4294967296
              · rw [if_pos hmax] at h
                simp at h
              · rw [if_neg hmax] at h
                rw [if_neg hmax]
                by_cases hsur : Surrogate_High_Min ≤
                    ((wide <<< 6) ||| (o &&& 0x3f)) % 4294967296 ∧
                    ((wide <<< 6) ||| (o &&& 0x3f)) % 4294967296 ≤ Surrogate_Low_Max
                · rw [if_pos hsur] at h
                  simp at h
                · rw [if_neg hsur] at h
                  rw [if_neg hsur]
                  have hrec := ih 0 (((wide <<< 6) ||| (o &&& 0x3f)) % 4294967296) le h
                  by_cases hbmp : Maximum_BMP_Value <
                      ((wide <<< 6) ||| (o &&& 0x3f)) % 4294967296
                  · rw [if_pos hbmp]
                    simpa using hrec
                  · rw [if_neg hbmp]
                    simpa using hrec
            · rw [if_neg hone] at h
              rw [if_neg hone]
              exact ih (expected - 1) _ le h
        · rw [if_neg hexp] at h
          rw [if_neg hexp]
          by_cases hascii : o ≤ 0x7f
          · rw [if_pos hascii] at h
            rw [if_pos hascii]
            simpa using ih 0 wide le h
          · rw [if_neg hascii] at h
            rw [if_neg hascii]
            by_cases h2o : o &&& 0xe0 = 0xc0
            · rw [if_pos h2o] at h
              rw [if_pos h2o]
              exact ih _ _ le h
            · rw [if_neg h2o] at h
              rw [if_neg h2o]
              by_cases h3o : o &&& 0xf0 = 0xe0
              · rw [if_pos h3o] at h
                rw [if_pos h3o]
                exact ih _ _ le h
              · rw [if_neg h3o] at h
                rw [if_neg h3o]
                by_cases h4o : o &&& 0xf8 = 0xf0
                · rw [if_pos h4o] at h
                  rw [if_pos h4o]
                  exact ih _ _ le h
                · rw [if_neg h4o] at h
                  simp at h

/-- When all guards pass, `ConvertUTF16ToUTF8` is its code-unit loop. -/
theorem convert16_eq_loop (s : List Nat) (cap : Nat) (le : Bool)
    (hne : s.length ≠ 0) (hodd : s.length &&& 1 = 0)
    (hmax : ¬Max_UTF16_String < s.length)
    (hcap : ¬cap < s.length + (s.length >>> 1)) :
    ConvertUTF16ToUTF8 s cap le = utf16ToUtf8Loop (bomAdjust le s) s := by
  unfold ConvertUTF16ToUTF8
  rw [if_neg hne, if_neg (not_not_intro hodd), if_neg hmax, if_neg hcap]

/-- An undersized output capacity makes `ConvertUTF16ToUTF8` fail on
nonempty (well-guarded) input. -/
theorem convert16_none_of_small_cap (s : List Nat) (cap : Nat) (le : Bool)
    (hne : s.length ≠ 0) (hodd : s.length &&& 1 = 0)
    (hmax : ¬Max_UTF16_String < s.length)
    (hcap : cap < s.length + (s.length >>> 1)) :
    ConvertUTF16ToUTF8 s cap le = none := by
  unfold ConvertUTF16ToUTF8
  rw [if_neg hne, if_neg (not_not_intro hodd), if_neg hmax, if_pos hcap]

/-- Claim C8: exact buffer sizing boundary.  For nonempty valid UTF-8 input,
`ConvertUTF8ToUTF16` succeeds with an output capacity of exactly
`2 * length` and fails (returning the zero-count failure) with one less.
For nonempty UTF-16 input that converts successfully (with an ample
buffer), `ConvertUTF16ToUTF8` succeeds with capacity exactly
`length + length / 2` and fails with one less. -/
theorem c8_buffer_boundary :
    (∀ (s : List Nat) (le : Bool), s ≠ [] → IsUTF8Valid s = true →
      (ConvertUTF8ToUTF16 s (2 * s.length) le).isSome = true ∧
      ConvertUTF8ToUTF16 s (2 * s.length - 1) le = none) ∧
    (∀ (s : List Nat) (le : Bool) (out : List Nat), s ≠ [] →
      ConvertUTF16ToUTF8 s (2 * s.length) le = some out →
      ConvertUTF16ToUTF8 s (s.length + (s.length >>> 1)) le = some out ∧
      ConvertUTF16ToUTF8 s (s.length + (s.length >>> 1) - 1) le = none) := by
  constructor
  · intro s le hne hval
    have hpos : 0 < s.length := List.length_pos.mpr hne
    have hloop := valid_imp_convertLoop s 0 0 le (isUTF8Valid_loop_of_ne s hne hval)
    constructor
    · unfold ConvertUTF8ToUTF16
      rw [if_neg (fun hh => hne (by simpa using hh)),
        if_neg (show ¬(2 * s.length < s.length * 2) by omega)]
      exact hloop
    · unfold ConvertUTF8ToUTF16
      rw [if_neg (fun hh => hne (by simpa using hh)),
        if_pos (show 2 * s.length - 1 < s.length * 2 by omega)]
  · intro s le out hne hsucc
    have hlen : s.length ≠ 0 := fun hh => hne (List.length_eq_zero.mp hh)
    have hpos : 0 < s.length := List.length_pos.mpr hne
    have hodd : s.length &&& 1 = 0 := by
      by_contra hodd
      rw [convert16_eq_noBOM] at hsucc
      unfold ConvertUTF16ToUTF8_noBOM at hsucc
      rw [if_neg hlen, if_pos hodd] at hsucc
      cases hsucc
    have hmax : ¬Max_UTF16_String < s.length := by
      by_contra hmax
      rw [convert16_eq_noBOM] at hsucc
      unfold ConvertUTF16ToUTF8_noBOM at hsucc
      rw [if_neg hlen, if_neg (not_not_intro hodd), if_pos hmax] at hsucc
      cases hsucc
    have hdiv : s.length >>> 1 ≤ s.length := by
      rw [Nat.shiftRight_eq_div_pow]
      norm_num
      omega
    have hloop : utf16ToUtf8Loop (bomAdjust le s) s = some out := by
      rw [convert16_eq_loop s (2 * s.length) le hlen hodd hmax (by omega)] at hsucc
      exact hsucc
    constructor
    · rw [convert16_eq_loop s _ le hlen hodd hmax (by omega)]
      exact hloop
    · exact convert16_none_of_small_cap s _ le hlen hodd hmax (by omega)

/-- Witness for C8: the one-octet input "A" for the UTF-8 side and the
UTF-16LE octets of "A" for the other side. -/
theorem c8_witness :
    ((ConvertUTF8ToUTF16 [0x41] 2 true).isSome = true ∧
      ConvertUTF8ToUTF16 [0x41] 1 true = none) ∧
    (ConvertUTF16ToUTF8 [0x41, 0x00] 3 true = some [0x41] ∧
      ConvertUTF16ToUTF8 [0x41, 0x00] 2 true = none) := by
  constructor
  · exact c8_buffer_boundary.1 [0x41] true (by decide) (by decide)
  · exact c8_buffer_boundary.2 [0x41, 0x00] true [0x41] (by decide) (by decide)

/-! ## Claim C3: byte-level rejection -/

/-- `a <<< 6 = a * 64`. -/
theorem shl6 (a : Nat) : a <<< 6 = a * 64 := by
  rw [Nat.shiftLeft_eq]

/-- Disjoint or after a 6-bit shift is addition. -/
theorem mul64_lor (a b : Nat) (h : b < 64) : a * 64 ||| b = a * 64 + b := by
  have h2 := lor_eq_add_pow 6 a b (by norm_num; omega)
  norm_num at h2
  exact h2

/-- The validator rejects any input containing an octet 0xC0, 0xC1 or at
least 0xF5, from any loop state: these per-octet checks run first. -/
theorem validLoop_false_of_bad_byte (s : List Nat) : ∀ (expected wide : Nat),
    (∃ b ∈ s, b = 0xc0 ∨ b = 0xc1 ∨ 0xf5 ≤ b) →
    isUTF8ValidLoop s expected wide = false := by
  induction s with
  | nil =>
    intro expected wide h
    obtain ⟨b, hb, _⟩ := h
    exact absurd hb (List.not_mem_nil b)
  | cons o rest ih =>
    intro expected wide h
    simp only [isUTF8ValidLoop]
    by_cases hc0 : o = 0xc0 ∨ o = 0xc1
    · rw [if_pos hc0]
    · rw [if_neg hc0]
      by_cases hf5 : 0xf5 ≤ o
      · rw [if_pos hf5]
      · rw [if_neg hf5]
        have hrest : ∃ b ∈ rest, b = 0xc0 ∨ b = 0xc1 ∨ 0xf5 ≤ b := by
          obtain ⟨b, hb, hP⟩ := h
          rcases List.mem_cons.mp hb with rfl | hmem
          · rcases hP with rfl | rfl | hge
            · exact absurd (Or.inl rfl) hc0
            · exact absurd (Or.inr rfl) hc0
            · exact absurd hge hf5
          · exact ⟨b, hmem, hP⟩
        repeat' split
        all_goals first | rfl | exact ih _ _ hrest

/-- Once the conversion loop is mid-sequence with an accumulator already too
large (the state a 0xF5..0xF7 lead octet creates), it can only fail: either
a continuation check fails, the input ends early, or the completed value
exceeds 0x10FFFF. -/
theorem convertLoop_none_of_poisoned (s : List Nat) :
    ∀ (expected wide : Nat) (le : Bool), 1 ≤ expected →
    0x10ffff < wide * 64 ^ expected → (wide + 1) * 64 ^ expected ≤ 4294967296 →
    convertLoop le s expected wide = none := by
  induction s with
  | nil =>
    intro expected wide le h1 _ _
    simp only [convertLoop]
    rw [if_pos (by omega : 0 < expected)]
  | cons o rest ih =>
    intro expected wide le h1 hlow hhigh
    simp only [convertLoop]
    rw [if_pos (by omega : 0 < expected)]
    by_cases hcont : o &&& 0xc0 ≠ 0x80
    · rw [if_pos hcont]
    · rw [if_neg hcont]
      have ho : o &&& 0x3f < 64 := by
        rw [and_63]
        omega
      have hpow : 64 ^ expected = 64 ^ (expected - 1) * 64 := by
        conv_lhs => rw [show expected = (expected - 1) + 1 by omega]
        rw [Nat.pow_succ]
      have h64le : 64 ≤ 64 ^ expected := Nat.le_self_pow (by omega) 64
      have hnowrap : (wide + 1) * 64 ≤ 4294967296 :=
        le_trans (Nat.mul_le_mul_left _ h64le) hhigh
      have hw2 : ((wide <<< 6) ||| (o &&& 0x3f)) % 4294967296 =
          wide * 64 + (o &&& 0x3f) := by
        rw [shl6, mul64_lor wide _ ho, Nat.mod_eq_of_lt (by omega)]
      rw [hw2]
      by_cases hone : expected - 1 = 0
      · rw [if_pos hone]
        have hp1 : (64 : Nat) ^ expected = 64 := by
          rw [show expected = 1 by omega]
          norm_num
        rw [hp1] at hlow
        rw [if_pos (show Maximum_Character_Value < wide * 64 + (o &&& 0x3f) by
          unfold Maximum_Character_Value
          omega)]
      · rw [if_neg hone]
        refine ih (expected - 1) (wide * 64 + (o &&& 0x3f)) le (by omega) ?_ ?_
        · calc (0x10ffff : Nat) < wide * 64 ^ expected := hlow
            _ = wide * 64 * 64 ^ (expected - 1) := by rw [hpow]; ring
            _ ≤ (wide * 64 + (o &&& 0x3f)) * 64 ^ (expected - 1) :=
              Nat.mul_le_mul_right _ (by omega)
        · calc (wide * 64 + (o &&& 0x3f) + 1) * 64 ^ (expected - 1) ≤
              ((wide + 1) * 64) * 64 ^ (expected - 1) :=
                Nat.mul_le_mul_right _ (by omega)
            _ = (wide + 1) * 64 ^ expected := by rw [hpow]; ring
            _ ≤ 4294967296 := hhigh

/-- The UTF-8 to UTF-16 conversion loop fails on any octet sequence (octets
being < 256) containing a value of at least 0xF5, from any loop state: such
a value can be neither a continuation octet nor a survivable lead. -/
theorem convertLoop_none_of_f5 (s : List Nat) :
    ∀ (expected wide : Nat) (le : Bool), (∀ b ∈ s, b < 256) →
    (∃ b ∈ s, 0xf5 ≤ b) → convertLoop le s expected wide = none := by
  induction s with
  | nil =>
    intro expected wide le _ h
    obtain ⟨b, hb, _⟩ := h
    exact absurd hb (List.not_mem_nil b)
  | cons o rest ih =>
    intro expected wide le hbound h
    have ho256 : o < 256 := hbound o (List.mem_cons_self o rest)
    have hbrest : ∀ b ∈ rest, b < 256 := fun b hb => hbound b (List.mem_cons_of_mem o hb)
    have hsplit : 0xf5 ≤ o ∨ ∃ b ∈ rest, 0xf5 ≤ b := by
      obtain ⟨b, hb, hP⟩ := h
      rcases List.mem_cons.mp hb with rfl | hmem
      · exact Or.inl hP
      · exact Or.inr ⟨b, hmem, hP⟩
    simp only [convertLoop]
    by_cases hexp : 0 < expected
    · rw [if_pos hexp]
      by_cases hcont : o &&& 0xc0 ≠ 0x80
      · rw [if_pos hcont]
      · rw [if_neg hcont]
        have hof5 : ¬0xf5 ≤ o := by
          have hfact : ∀ b : Nat, b < 256 → b &&& 0xc0 = 0x80 → b < 0xf5 := by decide
          have := hfact o ho256 (not_not.mp hcont)
          omega
        have hrest : ∃ b ∈ rest, 0xf5 ≤ b := hsplit.resolve_left hof5
        by_cases hone : expected - 1 = 0
        · rw [if_pos hone]
          by_cases hmax : Maximum_Character_Value <
              ((wide <<< 6) ||| (o &&& 0x3f)) % 4294967296
          · rw [if_pos hmax]
          · rw [if_neg hmax]
            by_cases hsur : Surrogate_High_Min ≤
                ((wide <<< 6) ||| (o &&& 0x3f)) % 4294967296 ∧
                ((wide <<< 6) ||| (o &&& 0x3f)) % 4294967296 ≤ Surrogate_Low_Max
            · rw [if_pos hsur]
            · rw [if_neg hsur]
              rw [ih _ _ le hbrest hrest]
              by_cases hbmp : Maximum_BMP_Value <
                  ((wide <<< 6) ||| (o &&& 0x3f)) % 4294967296
              · rw [if_pos hbmp]
                rfl
              · rw [if_neg hbmp]
                rfl
        · rw [if_neg hone]
          exact ih _ _ le hbrest hrest
    · rw [if_neg hexp]
      by_cases hascii : o ≤ 0x7f
      · rw [if_pos hascii]
        rw [ih _ _ le hbrest (hsplit.resolve_left (by omega))]
        rfl
      · rw [if_neg hascii]
        by_cases h2o : o &&& 0xe0 = 0xc0
        · rw [if_pos h2o]
          have hof5 : ¬0xf5 ≤ o := by
            have hfact : ∀ b : Nat, b < 256 → b &&& 0xe0 = 0xc0 → b < 0xf5 := by decide
            have := hfact o ho256 h2o
            omega
          exact ih _ _ le hbrest (hsplit.resolve_left hof5)
        · rw [if_neg h2o]
          by_cases h3o : o &&& 0xf0 = 0xe0
          · rw [if_pos h3o]
            have hof5 : ¬0xf5 ≤ o := by
              have hfact : ∀ b : Nat, b < 256 → b &&& 0xf0 = 0xe0 → b < 0xf5 := by decide
              have := hfact o ho256 h3o
              omega
            exact ih _ _ le hbrest (hsplit.resolve_left hof5)
          · rw [if_neg h3o]
            by_cases h4o : o &&& 0xf8 = 0xf0
            · rw [if_pos h4o]
              rcases hsplit with hof5 | hrest
              · have hfact : ∀ b : Nat, b < 256 → b &&& 0xf8 = 0xf0 → 0xf5 ≤ b →
                    5 ≤ b &&& 0x07 ∧ b &&& 0x07 < 8 := by decide
                have hw := hfact o ho256 h4o hof5
                refine convertLoop_none_of_poisoned rest 3 (o &&& 0x07) le (by omega)
                  (by norm_num; omega) (by norm_num; omega)
              · exact ih _ _ le hbrest hrest
            · rw [if_neg h4o]

/-- Claim C3 (amended): any input containing the octet 0xC0 or 0xC1 is
rejected by `IsUTF8Valid` (but not by the two converters, see the
counterexample), and any octet sequence containing a value of at least 0xF5
is rejected both by `IsUTF8Valid` and by `ConvertUTF8ToUTF16`, regardless
of the surrounding octets. -/
theorem c3_byte_level_rejection :
    (∀ s : List Nat, 0xc0 ∈ s ∨ 0xc1 ∈ s → IsUTF8Valid s = false) ∧
    (∀ s : List Nat, (∃ b ∈ s, 0xf5 ≤ b) → IsUTF8Valid s = false) ∧
    (∀ (s : List Nat) (cap : Nat) (le : Bool), (∀ b ∈ s, b < 256) →
      (∃ b ∈ s, 0xf5 ≤ b) → ConvertUTF8ToUTF16 s cap le = none) := by
  refine ⟨?_, ?_, ?_⟩
  · intro s h
    have hne : s ≠ [] := by
      rcases h with h | h <;> exact List.ne_nil_of_mem h
    unfold IsUTF8Valid
    rw [if_neg (fun hh => hne (by simpa using hh))]
    apply validLoop_false_of_bad_byte
    rcases h with h | h
    · exact ⟨0xc0, h, Or.inl rfl⟩
    · exact ⟨0xc1, h, Or.inr (Or.inl rfl)⟩
  · intro s h
    obtain ⟨b, hb, hge⟩ := h
    have hne : s ≠ [] := List.ne_nil_of_mem hb
    unfold IsUTF8Valid
    rw [if_neg (fun hh => hne (by simpa using hh))]
    exact validLoop_false_of_bad_byte s 0 0 ⟨b, hb, Or.inr (Or.inr hge)⟩
  · intro s cap le hbound h
    have hne : s ≠ [] := by
      obtain ⟨b, hb, _⟩ := h
      exact List.ne_nil_of_mem hb
    unfold ConvertUTF8ToUTF16
    rw [if_neg (fun hh => hne (by simpa using hh))]
    by_cases hcap : cap < s.length * 2
    · rw [if_pos hcap]
    · rw [if_neg hcap]
      exact convertLoop_none_of_f5 s 0 0 le hbound h

/-- Witness for C3 (amended) at concrete inputs: `41 C0`, `C1`, `F5` for
the validator and `F5` (with ample capacity) for the converter. -/
theorem c3_witness :
    IsUTF8Valid [0x41, 0xc0] = false ∧
    IsUTF8Valid [0xc1] = false ∧
    IsUTF8Valid [0x41, 0xf5] = false ∧
    ConvertUTF8ToUTF16 [0x41, 0xf5] 4 true = none := by
  refine ⟨?_, ?_, ?_, ?_⟩
  · exact c3_byte_level_rejection.1 [0x41, 0xc0] (Or.inl (by decide))
  · exact c3_byte_level_rejection.1 [0xc1] (Or.inr (by decide))
  · exact c3_byte_level_rejection.2.1 [0x41, 0xf5] ⟨0xf5, by decide, by decide⟩
  · exact c3_byte_level_rejection.2.2 [0x41, 0xf5] 4 true (by decide)
      ⟨0xf5, by decide, by decide⟩

/-! ## Claim C2: round trip on canonical input -/

/-- `a <<< 8 = a * 256`. -/
theorem shl8 (a : Nat) : a <<< 8 = a * 256 := by
  rw [Nat.shiftLeft_eq]

/-- Disjoint or after an 8-bit shift is addition. -/
theorem mul256_lor (a b : Nat) (h : b < 256) : a * 256 ||| b = a * 256 + b := by
  have h2 := lor_eq_add_pow 8 a b (by norm_num; omega)
  norm_num at h2
  exact h2

/-- `0xc0 ||| x = 0xc0 + x` for a 6-bit `x`. -/
theorem lor_c0 (x : Nat) (h : x < 64) : 0xc0 ||| x = 0xc0 + x := by
  have h2 := mul64_lor 3 x h
  norm_num at h2
  exact h2

/-- `0x80 ||| x = 0x80 + x` for a 6-bit `x`. -/
theorem lor_80 (x : Nat) (h : x < 64) : 0x80 ||| x = 0x80 + x := by
  have h2 := mul64_lor 2 x h
  norm_num at h2
  exact h2

/-- `0xe0 ||| x = 0xe0 + x` for a 4-bit `x`. -/
theorem lor_e0 (x : Nat) (h : x < 16) : 0xe0 ||| x = 0xe0 + x := by
  have h2 := lor_eq_add_pow 4 14 x (by norm_num; omega)
  norm_num at h2
  exact h2

/-- `0xf0 ||| x = 0xf0 + x` for a 3-bit `x`. -/
theorem lor_f0 (x : Nat) (h : x < 8) : 0xf0 ||| x = 0xf0 + x := by
  have h2 := lor_eq_add_pow 3 30 x (by norm_num; omega)
  norm_num at h2
  exact h2

/-- Canonical one-octet form. -/
theorem utf8Bytes_eq_1 (c : Nat) (h : c ≤ 0x7f) : utf8Bytes c = [c] := by
  unfold utf8Bytes utf8Encode
  rw [if_pos h, Option.getD_some]
  rw [and_127, Nat.mod_eq_of_lt (by omega)]

/-- Canonical two-octet form. -/
theorem utf8Bytes_eq_2 (c : Nat) (h1 : ¬c ≤ 0x7f) (h2 : c ≤ 0x7ff) :
    utf8Bytes c = [0xc0 + c / 64, 0x80 + c % 64] := by
  unfold utf8Bytes utf8Encode
  rw [if_neg h1, if_pos h2, Option.getD_some]
  rw [Nat.shiftRight_eq_div_pow, and_63, and_31]
  norm_num
  rw [Nat.mod_eq_of_lt (by omega : c / 64 < 32)]
  rw [lor_c0 _ (by omega), lor_80 _ (by omega)]
  omega

/-- Canonical three-octet form. -/
theorem utf8Bytes_eq_3 (c : Nat) (h1 : ¬c ≤ 0x7ff) (h2 : c ≤ 0xffff) :
    utf8Bytes c = [0xe0 + c / 4096, 0x80 + c / 64 % 64, 0x80 + c % 64] := by
  unfold utf8Bytes utf8Encode
  rw [if_neg (by omega : ¬c ≤ 0x7f), if_neg h1, if_pos h2, Option.getD_some]
  rw [Nat.shiftRight_eq_div_pow, Nat.shiftRight_eq_div_pow, and_63, and_63, and_15]
  norm_num
  rw [Nat.mod_eq_of_lt (by omega : c / 4096 < 16)]
  rw [lor_e0 _ (by omega), lor_80 _ (by omega), lor_80 _ (by omega)]
  omega

/-- Canonical four-octet form. -/
theorem utf8Bytes_eq_4 (c : Nat) (h1 : ¬c ≤ 0xffff) (h2 : c ≤ 0x10ffff) :
    utf8Bytes c =
      [0xf0 + c / 262144, 0x80 + c / 4096 % 64, 0x80 + c / 64 % 64, 0x80 + c % 64] := by
  unfold utf8Bytes utf8Encode
  rw [if_neg (by omega : ¬c ≤ 0x7f), if_neg (by omega : ¬c ≤ 0x7ff), if_neg h1,
    if_pos h2, Option.getD_some]
  rw [Nat.shiftRight_eq_div_pow, Nat.shiftRight_eq_div_pow, Nat.shiftRight_eq_div_pow,
    and_63, and_63, and_63, and_7]
  norm_num
  rw [Nat.mod_eq_of_lt (by omega : c / 262144 < 8)]
  rw [lor_f0 _ (by omega), lor_80 _ (by omega), lor_80 _ (by omega), lor_80 _ (by omega)]
  omega

/-- On scalar values the encoder yields exactly its canonical octets. -/
theorem utf8Encode_eq_some (c : Nat) (h : c ≤ 0x10ffff) :
    utf8Encode c = some (utf8Bytes c) := by
  have hs := utf8Encode_isSome c h
  unfold utf8Bytes
  cases heq : utf8Encode c with
  | none => rw [heq] at hs; cases hs
  | some l => rw [Option.getD_some]

/-- With no continuation octets pending, the stale accumulator value does
not influence the conversion loop. -/
theorem convertLoop_state0 (s : List Nat) : ∀ (w1 w2 : Nat) (le : Bool),
    convertLoop le s 0 w1 = convertLoop le s 0 w2 := by
  induction s with
  | nil => intro w1 w2 le; rfl
  | cons o rest ih =>
    intro w1 w2 le
    simp only [convertLoop]
    rw [if_neg (Nat.lt_irrefl 0), if_neg (Nat.lt_irrefl 0)]
    by_cases hascii : o ≤ 0x7f
    · rw [if_pos hascii, if_pos hascii, ih w1 w2 le]
    · rw [if_neg hascii, if_neg hascii]

/-- One-step unfolding of the conversion loop at a cons input. -/
theorem convertLoop_cons_eq (le : Bool) (o : Nat) (rest : List Nat)
    (expected wide : Nat) :
    convertLoop le (o :: rest) expected wide =
      (if 0 < expected then
        if o &&& 0xc0 ≠ 0x80 then none
        else
          if expected - 1 = 0 then
            if Maximum_Character_Value < ((wide <<< 6) ||| (o &&& 0x3f)) % 4294967296 then
              none
            else if Surrogate_High_Min ≤ ((wide <<< 6) ||| (o &&& 0x3f)) % 4294967296 ∧
                ((wide <<< 6) ||| (o &&& 0x3f)) % 4294967296 ≤ Surrogate_Low_Max then none
            else if Maximum_BMP_Value < ((wide <<< 6) ||| (o &&& 0x3f)) % 4294967296 then
              (convertLoop le rest 0 (((wide <<< 6) ||| (o &&& 0x3f)) % 4294967296)).map
                fun t =>
                  (insertUTF16 le ((Lead_Offset +
                      ((((wide <<< 6) ||| (o &&& 0x3f)) % 4294967296) >>> 10)) % 65536) ++
                    insertUTF16 le ((Surrogate_Low_Min +
                      ((((wide <<< 6) ||| (o &&& 0x3f)) % 4294967296) &&& 0x3ff)) % 65536)) ++ t
            else
              (convertLoop le rest 0 (((wide <<< 6) ||| (o &&& 0x3f)) % 4294967296)).map
                fun t =>
                  insertUTF16 le ((((wide <<< 6) ||| (o &&& 0x3f)) % 4294967296) % 65536) ++ t
          else convertLoop le rest (expected - 1) (((wide <<< 6) ||| (o &&& 0x3f)) % 4294967296)
      else
        if o ≤ 0x7f then
          (convertLoop le rest 0 wide).map fun t => insertUTF16 le o ++ t
        else if o &&& 0xe0 = 0xc0 then convertLoop le rest 1 (o &&& 0x3f)
        else if o &&& 0xf0 = 0xe0 then convertLoop le rest 2 (o &&& 0x0f)
        else if o &&& 0xf8 = 0xf0 then convertLoop le rest 3 (o &&& 0x07)
        else none) := rfl

/-- Conversion step: ASCII octet. -/
theorem convertLoop_ascii (le : Bool) (o : Nat) (rest : List Nat) (w : Nat)
    (h : o ≤ 0x7f) :
    convertLoop le (o :: rest) 0 w =
      (convertLoop le rest 0 w).map fun t => insertUTF16 le o ++ t := by
  rw [convertLoop_cons_eq, if_neg (Nat.lt_irrefl 0), if_pos h]

/-- Conversion step: two-octet lead. -/
theorem convertLoop_lead2 (le : Bool) (o : Nat) (rest : List Nat) (w : Nat)
    (h1 : ¬o ≤ 0x7f) (h2 : o &&& 0xe0 = 0xc0) :
    convertLoop le (o :: rest) 0 w = convertLoop le rest 1 (o &&& 0x3f) := by
  rw [convertLoop_cons_eq, if_neg (Nat.lt_irrefl 0), if_neg h1, if_pos h2]

/-- Conversion step: three-octet lead. -/
theorem convertLoop_lead3 (le : Bool) (o : Nat) (rest : List Nat) (w : Nat)
    (h1 : ¬o ≤ 0x7f) (h2 : ¬o &&& 0xe0 = 0xc0) (h3 : o &&& 0xf0 = 0xe0) :
    convertLoop le (o :: rest) 0 w = convertLoop le rest 2 (o &&& 0x0f) := by
  rw [convertLoop_cons_eq, if_neg (Nat.lt_irrefl 0), if_neg h1, if_neg h2, if_pos h3]

/-- Conversion step: four-octet lead. -/
theorem convertLoop_lead4 (le : Bool) (o : Nat) (rest : List Nat) (w : Nat)
    (h1 : ¬o ≤ 0x7f) (h2 : ¬o &&& 0xe0 = 0xc0) (h3 : ¬o &&& 0xf0 = 0xe0)
    (h4 : o &&& 0xf8 = 0xf0) :
    convertLoop le (o :: rest) 0 w = convertLoop le rest 3 (o &&& 0x07) := by
  rw [convertLoop_cons_eq, if_neg (Nat.lt_irrefl 0), if_neg h1, if_neg h2, if_neg h3,
    if_pos h4]

/-- Conversion step: continuation octet, more octets still expected. -/
theorem convertLoop_cont_mid (le : Bool) (o : Nat) (rest : List Nat)
    (expected wide v : Nat) (hexp : 0 < expected) (hcont : o &&& 0xc0 = 0x80)
    (hmid : expected - 1 ≠ 0)
    (hv : ((wide <<< 6) ||| (o &&& 0x3f)) % 4294967296 = v) :
    convertLoop le (o :: rest) expected wide = convertLoop le rest (expected - 1) v := by
  rw [convertLoop_cons_eq, if_pos hexp, if_neg (not_not_intro hcont), if_neg hmid, hv]

/-- Conversion step: final continuation octet completing a BMP codepoint. -/
theorem convertLoop_cont_last_bmp (le : Bool) (o : Nat) (rest : List Nat)
    (expected wide v : Nat) (hexp : 0 < expected) (hcont : o &&& 0xc0 = 0x80)
    (hlast : expected - 1 = 0)
    (hv : ((wide <<< 6) ||| (o &&& 0x3f)) % 4294967296 = v)
    (hval : v ≤ 0xffff) (hnsur : ¬(0xd800 ≤ v ∧ v ≤ 0xdfff)) :
    convertLoop le (o :: rest) expected wide =
      (convertLoop le rest 0 v).map fun t => insertUTF16 le (v % 65536) ++ t := by
  rw [convertLoop_cons_eq, if_pos hexp, if_neg (not_not_intro hcont), if_pos hlast]
  simp only [hv]
  rw [if_neg (show ¬Maximum_Character_Value < v by unfold Maximum_Character_Value; omega)]
  rw [if_neg (show ¬(Surrogate_High_Min ≤ v ∧ v ≤ Surrogate_Low_Max) by
    unfold Surrogate_High_Min Surrogate_Low_Max; omega)]
  rw [if_neg (show ¬Maximum_BMP_Value < v by unfold Maximum_BMP_Value; omega)]

/-- Conversion step: final continuation octet completing a supplementary
codepoint, emitted as a surrogate pair. -/
theorem convertLoop_cont_last_supp (le : Bool) (o : Nat) (rest : List Nat)
    (expected wide v : Nat) (hexp : 0 < expected) (hcont : o &&& 0xc0 = 0x80)
    (hlast : expected - 1 = 0)
    (hv : ((wide <<< 6) ||| (o &&& 0x3f)) % 4294967296 = v)
    (hbmp : 0xffff < v) (hval : v ≤ 0x10ffff) :
    convertLoop le (o :: rest) expected wide =
      (convertLoop le rest 0 v).map fun t =>
        (insertUTF16 le ((Lead_Offset + (v >>> 10)) % 65536) ++
          insertUTF16 le ((Surrogate_Low_Min + (v &&& 0x3ff)) % 65536)) ++ t := by
  rw [convertLoop_cons_eq, if_pos hexp, if_neg (not_not_intro hcont), if_pos hlast]
  simp only [hv]
  rw [if_neg (show ¬Maximum_Character_Value < v by unfold Maximum_Character_Value; omega)]
  rw [if_neg (show ¬(Surrogate_High_Min ≤ v ∧ v ≤ Surrogate_Low_Max) by
    unfold Surrogate_High_Min Surrogate_Low_Max; omega)]
  rw [if_pos (show Maximum_BMP_Value < v by unfold Maximum_BMP_Value; omega)]

/-- Bit patterns of canonical two-octet leads. -/
theorem byteFact_c0 : ∀ m : Nat, m < 32 →
    (0xc0 + m) &&& 0xe0 = 0xc0 ∧ (0xc0 + m) &&& 0x3f = m := by decide

/-- Bit patterns of continuation octets. -/
theorem byteFact_80 : ∀ k : Nat, k < 64 →
    (0x80 + k) &&& 0xc0 = 0x80 ∧ (0x80 + k) &&& 0x3f = k := by decide

/-- Bit patterns of canonical three-octet leads. -/
theorem byteFact_e0 : ∀ m : Nat, m < 16 →
    (0xe0 + m) &&& 0xe0 = 0xe0 ∧ (0xe0 + m) &&& 0xf0 = 0xe0 ∧
    (0xe0 + m) &&& 0x0f = m := by decide

/-- Bit patterns of canonical four-octet leads. -/
theorem byteFact_f0 : ∀ m : Nat, m < 8 →
    (0xf0 + m) &&& 0xe0 = 0xe0 ∧ (0xf0 + m) &&& 0xf0 = 0xf0 ∧
    (0xf0 + m) &&& 0xf8 = 0xf0 ∧ (0xf0 + m) &&& 0x07 = m := by decide

/-- BMP codepoints are emitted as one code unit. -/
theorem utf16EncodeCp_bmp (le : Bool) (c : Nat) (h : ¬0xffff < c) :
    utf16EncodeCp le c = insertUTF16 le (c % 65536) := by
  unfold utf16EncodeCp Maximum_BMP_Value
  rw [if_neg h]

/-- Supplementary codepoints are emitted as a surrogate pair. -/
theorem utf16EncodeCp_supp (le : Bool) (c : Nat) (h : 0xffff < c) :
    utf16EncodeCp le c =
      insertUTF16 le ((Lead_Offset + (c >>> 10)) % 65536) ++
        insertUTF16 le ((Surrogate_Low_Min + (c &&& 0x3ff)) % 65536) := by
  unfold utf16EncodeCp Maximum_BMP_Value
  rw [if_pos h]

/-- Decoding one canonical codepoint encoding through the UTF-8 to UTF-16
conversion loop emits exactly that codepoint's code units and continues. -/
theorem convertLoop_canonical (c : Nat) (hc : c ≤ 0x10ffff)
    (hs : ¬(0xd800 ≤ c ∧ c ≤ 0xdfff)) (rest : List Nat) (w : Nat) (le : Bool) :
    convertLoop le (utf8Bytes c ++ rest) 0 w =
      (convertLoop le rest 0 0).map fun t => utf16EncodeCp le c ++ t := by
  by_cases h1 : c ≤ 0x7f
  · rw [utf8Bytes_eq_1 c h1]
    simp only [List.cons_append, List.nil_append]
    rw [convertLoop_ascii le c rest w h1, convertLoop_state0 rest w 0 le]
    simp only [utf16EncodeCp_bmp le c (by omega), Nat.mod_eq_of_lt (show c < 65536 by omega)]
  · by_cases h2 : c ≤ 0x7ff
    · rw [utf8Bytes_eq_2 c h1 h2]
      simp only [List.cons_append, List.nil_append]
      rw [convertLoop_lead2 le _ _ w (by omega) (byteFact_c0 _ (by omega)).1]
      rw [(byteFact_c0 (c / 64) (by omega)).2]
      rw [convertLoop_cont_last_bmp le _ rest 1 (c / 64) c (by omega)
        (byteFact_80 _ (by omega)).1 (by omega)
        (by rw [(byteFact_80 (c % 64) (by omega)).2, shl6, mul64_lor _ _ (by omega),
              Nat.mod_eq_of_lt (by omega)]
            omega)
        (by omega) (by omega)]
      rw [convertLoop_state0 rest c 0 le]
      simp only [utf16EncodeCp_bmp le c (by omega)]
    · by_cases h3 : c ≤ 0xffff
      · rw [utf8Bytes_eq_3 c h2 h3]
        simp only [List.cons_append, List.nil_append]
        rw [convertLoop_lead3 le _ _ w (by omega)
          (by have := (byteFact_e0 (c / 4096) (by omega)).1; omega)
          (byteFact_e0 _ (by omega)).2.1]
        rw [(byteFact_e0 (c / 4096) (by omega)).2.2]
        rw [convertLoop_cont_mid le _ _ 2 (c / 4096) (c / 64) (by omega)
          (byteFact_80 _ (by omega)).1 (by omega)
          (by rw [(byteFact_80 (c / 64 % 64) (by omega)).2, shl6, mul64_lor _ _ (by omega),
                Nat.mod_eq_of_lt (by omega)]
              omega)]
        rw [convertLoop_cont_last_bmp le _ rest (2 - 1) (c / 64) c (by omega)
          (byteFact_80 _ (by omega)).1 (by omega)
          (by rw [(byteFact_80 (c % 64) (by omega)).2, shl6, mul64_lor _ _ (by omega),
                Nat.mod_eq_of_lt (by omega)]
              omega)
          (by omega) (by omega)]
        rw [convertLoop_state0 rest c 0 le]
        simp only [utf16EncodeCp_bmp le c (by omega)]
      · rw [utf8Bytes_eq_4 c h3 hc]
        simp only [List.cons_append, List.nil_append]
        rw [convertLoop_lead4 le _ _ w (by omega)
          (by have := (byteFact_f0 (c / 262144) (by omega)).1; omega)
          (by have := (byteFact_f0 (c / 262144) (by omega)).2.1; omega)
          (byteFact_f0 _ (by omega)).2.2.1]
        rw [(byteFact_f0 (c / 262144) (by omega)).2.2.2]
        rw [convertLoop_cont_mid le _ _ 3 (c / 262144) (c / 4096) (by omega)
          (byteFact_80 _ (by omega)).1 (by omega)
          (by rw [(byteFact_80 (c / 4096 % 64) (by omega)).2, shl6, mul64_lor _ _ (by omega),
                Nat.mod_eq_of_lt (by omega)]
              omega)]
        rw [convertLoop_cont_mid le _ _ (3 - 1) (c / 4096) (c / 64) (by omega)
          (byteFact_80 _ (by omega)).1 (by omega)
          (by rw [(byteFact_80 (c / 64 % 64) (by omega)).2, shl6, mul64_lor _ _ (by omega),
                Nat.mod_eq_of_lt (by omega)]
              omega)]
        rw [convertLoop_cont_last_supp le _ rest (3 - 1 - 1) (c / 64) c (by omega)
          (byteFact_80 _ (by omega)).1 (by omega)
          (by rw [(byteFact_80 (c % 64) (by omega)).2, shl6, mul64_lor _ _ (by omega),
                Nat.mod_eq_of_lt (by omega)]
              omega)
          (by omega) hc]
        rw [convertLoop_state0 rest c 0 le]
        simp only [utf16EncodeCp_supp le c (by omega)]

/-- The conversion loop maps the canonical UTF-8 encoding of a scalar-value
sequence to its UTF-16 code-unit serialization. -/
theorem convertLoop_flat (cps : List Nat) (le : Bool)
    (hv : ∀ c ∈ cps, c ≤ 0x10ffff ∧ ¬(0xd800 ≤ c ∧ c ≤ 0xdfff)) :
    convertLoop le (concatMapBytes utf8Bytes cps) 0 0 =
      some (concatMapBytes (utf16EncodeCp le) cps) := by
  induction cps with
  | nil => rfl
  | cons c cs ih =>
    have hc := hv c (List.mem_cons_self c cs)
    have hcs : ∀ x ∈ cs, x ≤ 0x10ffff ∧ ¬(0xd800 ≤ x ∧ x ≤ 0xdfff) :=
      fun x hx => hv x (List.mem_cons_of_mem c hx)
    show convertLoop le (utf8Bytes c ++ concatMapBytes utf8Bytes cs) 0 0 =
      some (utf16EncodeCp le c ++ concatMapBytes (utf16EncodeCp le) cs)
    rw [convertLoop_canonical c hc.1 hc.2 _ 0 le, ih hcs, Option.map_some']

/-- Reading back the two octets `insertUTF16` wrote yields the code unit. -/
theorem insertUTF16_spec (le : Bool) (u : Nat) (hu : u < 65536) :
    ∃ b0 b1, insertUTF16 le u = [b0, b1] ∧ extractUTF16 le b0 b1 = u ∧
      b0 < 256 ∧ b1 < 256 := by
  cases le
  · refine ⟨(u >>> 8) &&& 0xff, u &&& 0xff, rfl, ?_, ?_, ?_⟩
    · show extractUTF16BE ((u >>> 8) &&& 0xff) (u &&& 0xff) = u
      unfold extractUTF16BE
      rw [and_255, and_255, Nat.shiftRight_eq_div_pow]
      norm_num
      rw [Nat.mod_eq_of_lt (by omega : u / 256 < 256), shl8,
        mul256_lor _ _ (by omega)]
      omega
    · rw [and_255]; omega
    · rw [and_255]; omega
  · refine ⟨u &&& 0xff, (u >>> 8) &&& 0xff, rfl, ?_, ?_, ?_⟩
    · show extractUTF16LE (u &&& 0xff) ((u >>> 8) &&& 0xff) = u
      unfold extractUTF16LE
      rw [and_255, and_255, Nat.shiftRight_eq_div_pow]
      norm_num
      rw [Nat.mod_eq_of_lt (by omega : u / 256 < 256), shl8,
        mul256_lor _ _ (by omega)]
      omega
    · rw [and_255]; omega
    · rw [and_255]; omega

/-- Decode step for a non-surrogate code unit. -/
theorem utf16Loop_single (le : Bool) (b0 b1 : Nat) (rest : List Nat)
    (h : ¬(0xd800 ≤ extractUTF16 le b0 b1 ∧ extractUTF16 le b0 b1 ≤ 0xdfff)) :
    utf16ToUtf8Loop le (b0 :: b1 :: rest) =
      (utf8Encode (extractUTF16 le b0 b1)).bind fun enc =>
        (utf16ToUtf8Loop le rest).map fun t => enc ++ t := by
  rw [utf16Loop_cons]
  rw [if_neg (show ¬(Surrogate_High_Min ≤ extractUTF16 le b0 b1 ∧
      extractUTF16 le b0 b1 ≤ Surrogate_Low_Max) by
    unfold Surrogate_High_Min Surrogate_Low_Max; omega)]

/-- Decode step for a well-formed surrogate pair. -/
theorem utf16Loop_pair (le : Bool) (b0 b1 b2 b3 : Nat) (rest : List Nat)
    (hh1 : 0xd800 ≤ extractUTF16 le b0 b1) (hh2 : extractUTF16 le b0 b1 ≤ 0xdbff)
    (hl1 : 0xdc00 ≤ extractUTF16 le b2 b3) (hl2 : extractUTF16 le b2 b3 ≤ 0xdfff) :
    utf16ToUtf8Loop le (b0 :: b1 :: b2 :: b3 :: rest) =
      (utf8Encode (surrogateCombine (extractUTF16 le b0 b1)
          (extractUTF16 le b2 b3))).bind fun enc =>
        (utf16ToUtf8Loop le rest).map fun t => enc ++ t := by
  rw [utf16Loop_cons]
  rw [if_pos (show Surrogate_High_Min ≤ extractUTF16 le b0 b1 ∧
      extractUTF16 le b0 b1 ≤ Surrogate_Low_Max by
    unfold Surrogate_High_Min Surrogate_Low_Max; omega)]
  rw [if_neg (show ¬(Surrogate_Low_Min ≤ extractUTF16 le b0 b1 ∧
      extractUTF16 le b0 b1 ≤ Surrogate_Low_Max) by
    unfold Surrogate_Low_Min Surrogate_Low_Max; omega)]
  show (if extractUTF16 le b2 b3 < Surrogate_Low_Min ∨
      Surrogate_Low_Max < extractUTF16 le b2 b3 then none
    else
      (utf8Encode (surrogateCombine (extractUTF16 le b0 b1)
          (extractUTF16 le b2 b3))).bind fun enc =>
        (utf16ToUtf8Loop le rest).map fun t => enc ++ t) = _
  rw [if_neg (show ¬(extractUTF16 le b2 b3 < Surrogate_Low_Min ∨
      Surrogate_Low_Max < extractUTF16 le b2 b3) by
    unfold Surrogate_Low_Min Surrogate_Low_Max; omega)]

/-- The high code unit emitted for a supplementary codepoint. -/
theorem lead_unit_val (c : Nat) (h1 : 0xffff < c) (h2 : c ≤ 0x10ffff) :
    (Lead_Offset + (c >>> 10)) % 65536 = 0xd7c0 + c / 1024 ∧
    0xd800 ≤ 0xd7c0 + c / 1024 ∧ 0xd7c0 + c / 1024 ≤ 0xdbff := by
  unfold Lead_Offset
  rw [Nat.shiftRight_eq_div_pow, Nat.shiftRight_eq_div_pow]
  norm_num
  omega

/-- The low code unit emitted for a supplementary codepoint. -/
theorem low_unit_val (c : Nat) :
    (Surrogate_Low_Min + (c &&& 0x3ff)) % 65536 = 0xdc00 + c % 1024 ∧
    0xdc00 ≤ 0xdc00 + c % 1024 ∧ 0xdc00 + c % 1024 ≤ 0xdfff := by
  unfold Surrogate_Low_Min
  rw [and_1023]
  refine ⟨Nat.mod_eq_of_lt (by omega), by omega, by omega⟩

/-- Decoding the code units of a BMP codepoint re-encodes it canonically. -/
theorem utf16Loop_canonical_bmp (le : Bool) (c : Nat) (hle : c ≤ 0xffff)
    (hs : ¬(0xd800 ≤ c ∧ c ≤ 0xdfff)) (rest : List Nat) :
    utf16ToUtf8Loop le (utf16EncodeCp le c ++ rest) =
      (utf16ToUtf8Loop le rest).map fun t => utf8Bytes c ++ t := by
  rw [utf16EncodeCp_bmp le c (by omega), Nat.mod_eq_of_lt (show c < 65536 by omega)]
  obtain ⟨b0, b1, hi, he, _, _⟩ := insertUTF16_spec le c (by omega)
  rw [hi]
  simp only [List.cons_append, List.nil_append]
  rw [utf16Loop_single le b0 b1 rest (by rw [he]; exact hs)]
  rw [he, utf8Encode_eq_some c (by omega), Option.some_bind]

/-- Decoding the surrogate pair of a supplementary codepoint re-encodes it
canonically. -/
theorem utf16Loop_canonical_supp (le : Bool) (c : Nat) (h1 : 0xffff < c)
    (h2 : c ≤ 0x10ffff) (rest : List Nat) :
    utf16ToUtf8Loop le (utf16EncodeCp le c ++ rest) =
      (utf16ToUtf8Loop le rest).map fun t => utf8Bytes c ++ t := by
  rw [utf16EncodeCp_supp le c h1]
  obtain ⟨hlv, hl1, hl2⟩ := lead_unit_val c h1 h2
  obtain ⟨hlov, hlo1, hlo2⟩ := low_unit_val c
  rw [hlv, hlov]
  obtain ⟨b0, b1, hi, he, _, _⟩ := insertUTF16_spec le (0xd7c0 + c / 1024) (by omega)
  obtain ⟨b2, b3, hi2, he2, _, _⟩ := insertUTF16_spec le (0xdc00 + c % 1024) (by omega)
  rw [hi, hi2]
  simp only [List.cons_append, List.nil_append, List.append_assoc]
  rw [utf16Loop_pair le b0 b1 b2 b3 rest (by rw [he]; omega) (by rw [he]; omega)
    (by rw [he2]; omega) (by rw [he2]; omega)]
  rw [he, he2]
  have hcomb : surrogateCombine (0xd7c0 + c / 1024) (0xdc00 + c % 1024) = c := by
    rw [surrogateCombine_closed _ _ (by omega) (by omega) (by omega) (by omega)]
    omega
  rw [hcomb, utf8Encode_eq_some c h2, Option.some_bind]

/-- The decode loop maps the UTF-16 serialization of a scalar-value sequence
back to its canonical UTF-8 encoding. -/
theorem utf16Loop_flat (cps : List Nat) (le : Bool)
    (hv : ∀ c ∈ cps, c ≤ 0x10ffff ∧ ¬(0xd800 ≤ c ∧ c ≤ 0xdfff)) :
    utf16ToUtf8Loop le (concatMapBytes (utf16EncodeCp le) cps) =
      some (concatMapBytes utf8Bytes cps) := by
  induction cps with
  | nil => rfl
  | cons c cs ih =>
    have hc := hv c (List.mem_cons_self c cs)
    have hcs : ∀ x ∈ cs, x ≤ 0x10ffff ∧ ¬(0xd800 ≤ x ∧ x ≤ 0xdfff) :=
      fun x hx => hv x (List.mem_cons_of_mem c hx)
    show utf16ToUtf8Loop le (utf16EncodeCp le c ++ concatMapBytes (utf16EncodeCp le) cs) =
      some (utf8Bytes c ++ concatMapBytes utf8Bytes cs)
    by_cases hbmp : c ≤ 0xffff
    · rw [utf16Loop_canonical_bmp le c hbmp hc.2 _, ih hcs, Option.map_some']
    · rw [utf16Loop_canonical_supp le c (by omega) hc.1 _, ih hcs, Option.map_some']

/-- On octet sequences free of 0xC0, 0xC1 and values of at least 0xF5 (as
canonical encodings are), conversion success implies validator acceptance:
on such octets the validator's extra checks cannot fire. -/
theorem convertLoop_imp_valid (s : List Nat) : ∀ (expected wide : Nat) (le : Bool),
    (∀ b ∈ s, b ≠ 0xc0 ∧ b ≠ 0xc1 ∧ b < 0xf5) →
    (convertLoop le s expected wide).isSome = true →
    isUTF8ValidLoop s expected wide = true := by
  induction s with
  | nil =>
    intro expected wide le _ h
    simp only [convertLoop] at h
    by_cases hexp : 0 < expected
    · rw [if_pos hexp] at h
      simp at h
    · rw [if_neg hexp] at h
      simp only [isUTF8ValidLoop, beq_iff_eq]
      omega
  | cons o rest ih =>
    intro expected wide le hb h
    have hbo := hb o (List.mem_cons_self o rest)
    have hbrest : ∀ b ∈ rest, b ≠ 0xc0 ∧ b ≠ 0xc1 ∧ b < 0xf5 :=
      fun b hbm => hb b (List.mem_cons_of_mem o hbm)
    simp only [convertLoop] at h
    simp only [isUTF8ValidLoop]
    rw [if_neg (show ¬(o = 0xc0 ∨ o = 0xc1) by omega)]
    rw [if_neg (show ¬0xf5 ≤ o by omega)]
    by_cases hexp : 0 < expected
    · rw [if_pos hexp] at h
      rw [if_pos hexp]
      by_cases hcont : o &&& 0xc0 ≠ 0x80
      · rw [if_pos hcont] at h
        simp at h
      · rw [if_neg hcont] at h
        rw [if_neg hcont]
        by_cases hone : expected - 1 = 0
        · rw [if_pos hone] at h
          rw [if_pos hone]
          by_cases hmax : Maximum_Character_Value <
              ((wide <<< 6) ||| (o &&& 0x3f)) % 4294967296
          · rw [if_pos hmax] at h
            simp at h
          · rw [if_neg hmax] at h
            rw [if_neg hmax]
            by_cases hsur : Surrogate_High_Min ≤
                ((wide <<< 6) ||| (o &&& 0x3f)) % 4294967296 ∧
                ((wide <<< 6) ||| (o &&& 0x3f)) % 4294967296 ≤ Surrogate_Low_Max
            · rw [if_pos hsur] at h
              simp at h
            · rw [if_neg hsur] at h
              rw [if_neg hsur]
              by_cases hbmp : Maximum_BMP_Value <
                  ((wide <<< 6) ||| (o &&& 0x3f)) % 4294967296
              · rw [if_pos hbmp] at h
                simp at h
                exact ih _ _ le hbrest h
              · rw [if_neg hbmp] at h
                simp at h
                exact ih _ _ le hbrest h
        · rw [if_neg hone] at h
          rw [if_neg hone]
          exact ih _ _ le hbrest h
    · rw [if_neg hexp] at h
      rw [if_neg hexp]
      by_cases hascii : o ≤ 0x7f
      · rw [if_pos hascii] at h
        rw [if_pos hascii]
        simp at h
        exact ih _ _ le hbrest h
      · rw [if_neg hascii] at h
        rw [if_neg hascii]
        by_cases h2o : o &&& 0xe0 = 0xc0
        · rw [if_pos h2o] at h
          rw [if_pos h2o]
          exact ih _ _ le hbrest h
        · rw [if_neg h2o] at h
          rw [if_neg h2o]
          by_cases h3o : o &&& 0xf0 = 0xe0
          · rw [if_pos h3o] at h
            rw [if_pos h3o]
            exact ih _ _ le hbrest h
          · rw [if_neg h3o] at h
            rw [if_neg h3o]
            by_cases h4o : o &&& 0xf8 = 0xf0
            · rw [if_pos h4o] at h
              rw [if_pos h4o]
              exact ih _ _ le hbrest h
            · rw [if_neg h4o] at h
              simp at h

/-- Canonical encodings contain no 0xC0, 0xC1 or value of at least 0xF5. -/
theorem utf8Bytes_good (c : Nat) (hc : c ≤ 0x10ffff) :
    ∀ b ∈ utf8Bytes c, b ≠ 0xc0 ∧ b ≠ 0xc1 ∧ b < 0xf5 := by
  by_cases h1 : c ≤ 0x7f
  · rw [utf8Bytes_eq_1 c h1]
    intro b hb
    simp at hb
    omega
  · by_cases h2 : c ≤ 0x7ff
    · rw [utf8Bytes_eq_2 c h1 h2]
      intro b hb
      simp at hb
      rcases hb with rfl | rfl <;> omega
    · by_cases h3 : c ≤ 0xffff
      · rw [utf8Bytes_eq_3 c h2 h3]
        intro b hb
        simp at hb
        rcases hb with rfl | rfl | rfl <;> omega
      · rw [utf8Bytes_eq_4 c h3 hc]
        intro b hb
        simp at hb
        rcases hb with rfl | rfl | rfl | rfl <;> omega

/-- A concatenation of canonical encodings contains no bad octet. -/
theorem concatBytes_good (cps : List Nat) (hv : ∀ c ∈ cps, c ≤ 0x10ffff) :
    ∀ b ∈ concatMapBytes utf8Bytes cps, b ≠ 0xc0 ∧ b ≠ 0xc1 ∧ b < 0xf5 := by
  induction cps with
  | nil =>
    intro b hb
    exact absurd hb (List.not_mem_nil b)
  | cons c cs ih =>
    intro b hb
    have hb2 : b ∈ utf8Bytes c ++ concatMapBytes utf8Bytes cs := hb
    rcases List.mem_append.mp hb2 with hm | hm
    · exact utf8Bytes_good c (hv c (List.mem_cons_self c cs)) b hm
    · exact ih (fun x hx => hv x (List.mem_cons_of_mem c hx)) b hm

/-- A codepoint serializes to two or four UTF-16 octets. -/
theorem utf16EncodeCp_length (le : Bool) (c : Nat) :
    (utf16EncodeCp le c).length = if 0xffff < c then 4 else 2 := by
  unfold utf16EncodeCp Maximum_BMP_Value insertUTF16 insertUTF16LE insertUTF16BE
  cases le <;> split <;> rfl

/-- Canonical UTF-8 length bounds. -/
theorem utf8Bytes_len_bounds (c : Nat) (hc : c ≤ 0x10ffff) :
    1 ≤ (utf8Bytes c).length ∧ (utf8Bytes c).length ≤ 4 ∧
    (0xffff < c → (utf8Bytes c).length = 4) := by
  by_cases h1 : c ≤ 0x7f
  · rw [utf8Bytes_eq_1 c h1]
    exact ⟨by simp, by simp, fun h => by omega⟩
  · by_cases h2 : c ≤ 0x7ff
    · rw [utf8Bytes_eq_2 c h1 h2]
      exact ⟨by simp, by simp, fun h => by omega⟩
    · by_cases h3 : c ≤ 0xffff
      · rw [utf8Bytes_eq_3 c h2 h3]
        exact ⟨by simp, by simp, fun h => by omega⟩
      · rw [utf8Bytes_eq_4 c h3 hc]
        exact ⟨by simp, by simp, fun _ => by simp⟩

/-- The UTF-16 serialization is at most twice as long as the UTF-8 form. -/
theorem utf16_len_le (cps : List Nat) (le : Bool)
    (hv : ∀ c ∈ cps, c ≤ 0x10ffff) :
    (concatMapBytes (utf16EncodeCp le) cps).length ≤
      2 * (concatMapBytes utf8Bytes cps).length := by
  induction cps with
  | nil => simp [concatMapBytes]
  | cons c cs ih =>
    show (utf16EncodeCp le c ++ concatMapBytes (utf16EncodeCp le) cs).length ≤
      2 * (utf8Bytes c ++ concatMapBytes utf8Bytes cs).length
    rw [List.length_append, List.length_append]
    have h1 := utf16EncodeCp_length le c
    have h2 := utf8Bytes_len_bounds c (hv c (List.mem_cons_self c cs))
    have ih2 := ih (fun x hx => hv x (List.mem_cons_of_mem c hx))
    by_cases hbmp : 0xffff < c
    · rw [if_pos hbmp] at h1
      have h4 := h2.2.2 hbmp
      omega
    · rw [if_neg hbmp] at h1
      omega

/-- The UTF-16 serialization has even length. -/
theorem utf16_len_even (cps : List Nat) (le : Bool) :
    (concatMapBytes (utf16EncodeCp le) cps).length % 2 = 0 := by
  induction cps with
  | nil => rfl
  | cons c cs ih =>
    show (utf16EncodeCp le c ++ concatMapBytes (utf16EncodeCp le) cs).length % 2 = 0
    rw [List.length_append]
    have h1 := utf16EncodeCp_length le c
    by_cases hbmp : 0xffff < c
    · rw [if_pos hbmp] at h1
      omega
    · rw [if_neg hbmp] at h1
      omega

/-- On the UTF-16 serialization of a canonical codepoint sequence whose
first codepoint is not a U+FFFE followed by further data, the BOM sniffing
keeps the caller's endianness flag: a leading U+FEFF writes a consistent BOM
pattern, a leading surrogate or ordinary unit writes no pattern at all. -/
theorem bomAdjust_canonical (cps : List Nat) (le : Bool)
    (hv : ∀ c ∈ cps, c ≤ 0x10ffff ∧ ¬(0xd800 ≤ c ∧ c ≤ 0xdfff))
    (hbom : ∀ cs : List Nat, cps = 0xfffe :: cs → cs = []) :
    bomAdjust le (concatMapBytes (utf16EncodeCp le) cps) = le := by
  cases cps with
  | nil => rfl
  | cons c1 cs =>
    have hc1 := hv c1 (List.mem_cons_self c1 cs)
    show bomAdjust le (utf16EncodeCp le c1 ++ concatMapBytes (utf16EncodeCp le) cs) = le
    by_cases hbmp : 0xffff < c1
    · rw [utf16EncodeCp_supp le c1 hbmp]
      obtain ⟨hlv, hl1, hl2⟩ := lead_unit_val c1 hbmp hc1.1
      rw [hlv]
      cases le
      · show bomAdjust false ((((0xd7c0 + c1 / 1024) >>> 8) &&& 0xff) ::
            ((0xd7c0 + c1 / 1024) &&& 0xff) :: _) = false
        apply bomAdjust_of_not_pattern
        · rintro ⟨ha, _⟩
          rw [and_255, Nat.shiftRight_eq_div_pow] at ha
          norm_num at ha
          omega
        · rintro ⟨ha, _⟩
          rw [and_255, Nat.shiftRight_eq_div_pow] at ha
          norm_num at ha
          omega
      · show bomAdjust true (((0xd7c0 + c1 / 1024) &&& 0xff) ::
            (((0xd7c0 + c1 / 1024) >>> 8) &&& 0xff) :: _) = true
        apply bomAdjust_of_not_pattern
        · rintro ⟨_, hb⟩
          rw [and_255, Nat.shiftRight_eq_div_pow] at hb
          norm_num at hb
          omega
        · rintro ⟨_, hb⟩
          rw [and_255, Nat.shiftRight_eq_div_pow] at hb
          norm_num at hb
          omega
    · rw [utf16EncodeCp_bmp le c1 hbmp, Nat.mod_eq_of_lt (show c1 < 65536 by omega)]
      by_cases hfffe : c1 = 0xfffe
      · have hcs : cs = [] := hbom cs (by rw [hfffe])
        subst hcs
        subst hfffe
        cases le <;> rfl
      · by_cases hfeff : c1 = 0xfeff
        · subst hfeff
          cases le
          · show (if 2 ≤ (concatMapBytes (utf16EncodeCp false) cs).length then
                if (0xfe : Nat) = 0xfe ∧ (0xff : Nat) = 0xff then false
                else if (0xfe : Nat) = 0xff ∧ (0xff : Nat) = 0xfe then true
                else false
              else false) = false
            split
            · rw [if_pos ⟨rfl, rfl⟩]
            · rfl
          · show (if 2 ≤ (concatMapBytes (utf16EncodeCp true) cs).length then
                if (0xff : Nat) = 0xfe ∧ (0xfe : Nat) = 0xff then false
                else if (0xff : Nat) = 0xff ∧ (0xfe : Nat) = 0xfe then true
                else true
              else true) = true
            split
            · rw [if_neg (by omega), if_pos ⟨rfl, rfl⟩]
            · rfl
        · cases le
          · show bomAdjust false (((c1 >>> 8) &&& 0xff) :: (c1 &&& 0xff) :: _) = false
            apply bomAdjust_of_not_pattern
            · rintro ⟨ha, hb⟩
              rw [and_255, Nat.shiftRight_eq_div_pow] at ha
              norm_num at ha
              rw [and_255] at hb
              omega
            · rintro ⟨ha, hb⟩
              rw [and_255, Nat.shiftRight_eq_div_pow] at ha
              norm_num at ha
              rw [and_255] at hb
              omega
          · show bomAdjust true ((c1 &&& 0xff) :: ((c1 >>> 8) &&& 0xff) :: _) = true
            apply bomAdjust_of_not_pattern
            · rintro ⟨ha, hb⟩
              rw [and_255] at ha
              rw [and_255, Nat.shiftRight_eq_div_pow] at hb
              norm_num at hb
              omega
            · rintro ⟨ha, hb⟩
              rw [and_255] at ha
              rw [and_255, Nat.shiftRight_eq_div_pow] at hb
              norm_num at hb
              omega

/-- Claim C2 (amended): for every sequence of Unicode scalar values (each at
most 0x10FFFF and not a surrogate), its shortest-form UTF-8 encoding — the
image of the code's own UTF-8 encoder — is accepted by `IsUTF8Valid`, and,
provided the sequence does not begin with U+FFFE followed by further
codepoints (which would make the UTF-16 form start with a byte-order-mark
pattern) and its size stays within the documented UTF-16 length ceiling,
converting it to UTF-16 and back with the same endianness and exactly sized
buffers succeeds and reproduces the original octets exactly. -/
theorem c2_roundtrip_amended (cps : List Nat) (le : Bool)
    (hv : ∀ c ∈ cps, c ≤ 0x10ffff ∧ ¬(0xd800 ≤ c ∧ c ≤ 0xdfff))
    (hbom : ∀ cs : List Nat, cps = 0xfffe :: cs → cs = [])
    (hlen : 2 * (concatMapBytes utf8Bytes cps).length ≤ Max_UTF16_String) :
    IsUTF8Valid (concatMapBytes utf8Bytes cps) = true ∧
    ∃ u, ConvertUTF8ToUTF16 (concatMapBytes utf8Bytes cps)
        (2 * (concatMapBytes utf8Bytes cps).length) le = some u ∧
      ConvertUTF16ToUTF8 u (u.length + (u.length >>> 1)) le =
        some (concatMapBytes utf8Bytes cps) := by
  cases cps with
  | nil => exact ⟨rfl, [], rfl, rfl⟩
  | cons c1 cs =>
    have hsne : concatMapBytes utf8Bytes (c1 :: cs) ≠ [] := by
      show utf8Bytes c1 ++ concatMapBytes utf8Bytes cs ≠ []
      have h1 := utf8Bytes_len_bounds c1 (hv c1 (List.mem_cons_self c1 cs)).1
      intro heq
      have h2 := congrArg List.length heq
      rw [List.length_append] at h2
      simp only [List.length_nil] at h2
      omega
    refine ⟨?_, concatMapBytes (utf16EncodeCp le) (c1 :: cs), ?_, ?_⟩
    · unfold IsUTF8Valid
      rw [if_neg (fun hh => hsne (by simpa using hh))]
      apply convertLoop_imp_valid _ 0 0 le
        (concatBytes_good _ (fun c hc => (hv c hc).1))
      rw [convertLoop_flat _ le hv]
      rfl
    · unfold ConvertUTF8ToUTF16
      rw [if_neg (fun hh => hsne (by simpa using hh))]
      rw [if_neg (show ¬(2 * (concatMapBytes utf8Bytes (c1 :: cs)).length <
          (concatMapBytes utf8Bytes (c1 :: cs)).length * 2) by omega)]
      exact convertLoop_flat _ le hv
    · have hu2 : 2 ≤ (utf16EncodeCp le c1).length := by
        rw [utf16EncodeCp_length]
        split <;> omega
      have hune : (concatMapBytes (utf16EncodeCp le) (c1 :: cs)).length ≠ 0 := by
        show (utf16EncodeCp le c1 ++ concatMapBytes (utf16EncodeCp le) cs).length ≠ 0
        rw [List.length_append]
        omega
      have heven := utf16_len_even (c1 :: cs) le
      have hpar : (concatMapBytes (utf16EncodeCp le) (c1 :: cs)).length &&& 1 = 0 := by
        rw [Nat.and_one_is_mod]
        exact heven
      have hle2 := utf16_len_le (c1 :: cs) le (fun c hc => (hv c hc).1)
      have hmax : ¬Max_UTF16_String <
          (concatMapBytes (utf16EncodeCp le) (c1 :: cs)).length := by omega
      rw [convert16_eq_loop _ _ le hune hpar hmax (by omega)]
      rw [bomAdjust_canonical (c1 :: cs) le hv hbom]
      exact utf16Loop_flat (c1 :: cs) le hv

/-- Witness for C2 (amended) on "A" followed by U+1F600. -/
theorem c2_witness :
    IsUTF8Valid (concatMapBytes utf8Bytes [0x41, 0x1f600]) = true ∧
    ∃ u, ConvertUTF8ToUTF16 (concatMapBytes utf8Bytes [0x41, 0x1f600])
        (2 * (concatMapBytes utf8Bytes [0x41, 0x1f600]).length) true = some u ∧
      ConvertUTF16ToUTF8 u (u.length + (u.length >>> 1)) true =
        some (concatMapBytes utf8Bytes [0x41, 0x1f600]) :=
  c2_roundtrip_amended [0x41, 0x1f600] true (by decide)
    (by intro cs hcs; simp at hcs) (by decide)
